import Mathlib

/-!
# Cache simulator (`src/cache.cpp`): shallow embedding

The C++ objects live in an explicit store: list nodes and `Cache` objects are
kept in two lists and a pointer is an index into the list (`none` is
`nullptr`).  Every statement of the source that goes through a pointer is a
read or a write of the store, in source order.  Executions that leave defined
behaviour (dereferencing an empty `shared_ptr`/`unique_ptr`, a failing
`assert`, indexing a `vector` past its size) end in `Res.fault`.
-/

namespace CacheSim

/-! ## Results of running C++ code -/

/-- Ways in which an execution of the source stops without a value. -/
inductive Fault where
  /-- `->` applied to an empty `shared_ptr` / `unique_ptr` / null raw pointer. -/
  | nullDeref
  /-- An `assert(...)` whose condition is false. -/
  | assertFail
  /-- `vector::operator[]` with an index that is not below `size()`. -/
  | outOfRange
  deriving DecidableEq, Repr

/-- Outcome of a call: a value, a fault of the C++ execution, or the
recursion budget of the embedding used up (`fuel`). -/
inductive Res (α : Type) where
  | ok (a : α)
  | fault (f : Fault)
  | fuel
  deriving DecidableEq, Repr

/-- Sequencing of fallible steps. -/
def Res.bind {α β : Type} : Res α → (α → Res β) → Res β
  | .ok a, f => f a
  | .fault e, _ => .fault e
  | .fuel, _ => .fuel

instance : Monad Res where
  pure := Res.ok
  bind := Res.bind

/-- The value of a completed call, if any. -/
def Res.val? {α : Type} : Res α → Option α
  | .ok a => some a
  | _ => none

/-- A pointer: `none` is `nullptr`, `some i` is the `i`-th allocated object. -/
abbrev Ptr := Option Nat

/-- Read through a pointer. -/
def deref {α : Type} (heap : List α) : Ptr → Res α
  | none => .fault .nullDeref
  | some i =>
    match heap[i]? with
    | some a => .ok a
    | none => .fault .nullDeref

/-- Write through a pointer: `p->field = ...`. -/
def modify {α : Type} (heap : List α) (p : Ptr) (f : α → α) : Res (List α) :=
  match p with
  | none => .fault .nullDeref
  | some i =>
    match heap[i]? with
    | some a => .ok (heap.set i (f a))
    | none => .fault .nullDeref

/-- The operator `v[i]` of `std::vector`. -/
def index {α : Type} (v : List α) (i : Nat) : Res α :=
  match v[i]? with
  | some a => .ok a
  | none => .fault .outOfRange

/-- Truncation to `uint32_t`. -/
def u32 (n : Nat) : Nat := n % 2 ^ 32

/-- Truncation to `uint64_t`. -/
def u64 (n : Nat) : Nat := n % 2 ^ 64

/-! ## `Node<T>` and `speciallist<T>` (lines 69-123) -/

/-- The class `Node<uint32_t>`: a value and the two links. -/
structure Node where
  value : Nat
  next : Ptr
  prev : Ptr
  deriving DecidableEq, Repr

/-- The class `speciallist<uint32_t>`: the two sentinels and the counter. -/
structure speciallist where
  head_ : Ptr
  tail_ : Ptr
  size_ : Nat
  deriving DecidableEq, Repr

/-- The constructor `speciallist()`: allocates the two sentinels and links
them to each other. -/
def speciallist.new (nodes : List Node) : speciallist × List Node :=
  let h := nodes.length
  let t := nodes.length + 1
  ({ head_ := some h, tail_ := some t, size_ := 0 },
   nodes ++ [{ value := 0, next := some t, prev := none },
             { value := 0, next := none, prev := some h }])

/-- The overload `push_front(shared_ptr<Node<T>>& node)`. -/
def speciallist.push_front_node (l : speciallist) (nodes : List Node) (node : Ptr) :
    Res (speciallist × List Node) := do
  -- node->next = head_->next;
  let h ← deref nodes l.head_
  let nodes ← modify nodes node (fun n => { n with next := h.next })
  -- node->prev = head_;
  let nodes ← modify nodes node (fun n => { n with prev := l.head_ })
  -- head_->next->prev = node;
  let h ← deref nodes l.head_
  let nodes ← modify nodes h.next (fun n => { n with prev := node })
  -- head_->next = node;
  let nodes ← modify nodes l.head_ (fun n => { n with next := node })
  -- size_++;
  pure ({ l with size_ := u32 (l.size_ + 1) }, nodes)

/-- The overload `push_front(T val)`: allocates the node, links it, returns it. -/
def speciallist.push_front (l : speciallist) (nodes : List Node) (val : Nat) :
    Res (Ptr × speciallist × List Node) := do
  let node : Ptr := some nodes.length
  let nodes := nodes ++ [{ value := val, next := none, prev := none }]
  let (l, nodes) ← l.push_front_node nodes node
  pure (node, l, nodes)

/-- The method `pop_back()`. -/
def speciallist.pop_back (l : speciallist) (nodes : List Node) :
    Res (Ptr × speciallist × List Node) :=
  -- if(!size_) return nullptr;
  if l.size_ = 0 then pure (none, l, nodes) else do
    -- size_--;
    let l := { l with size_ := l.size_ - 1 }
    -- n = tail_->prev;
    let t ← deref nodes l.tail_
    let n := t.prev
    -- tail_->prev = tail_->prev->prev;
    let tp ← deref nodes t.prev
    let nodes ← modify nodes l.tail_ (fun x => { x with prev := tp.prev })
    -- tail_->prev->next = tail_;
    let t ← deref nodes l.tail_
    let nodes ← modify nodes t.prev (fun x => { x with next := l.tail_ })
    pure (n, l, nodes)

/-- The method `remove(shared_ptr<Node<T>>& node)`; `size_` is not touched. -/
def speciallist.remove (l : speciallist) (nodes : List Node) (node : Ptr) :
    Res (List Node) :=
  -- if(node == head_ || node == tail_) return;
  if node = l.head_ ∨ node = l.tail_ then pure nodes else do
    -- node->next->prev = node->prev;
    let n ← deref nodes node
    let nodes ← modify nodes n.next (fun x => { x with prev := n.prev })
    -- node->prev->next = node->next;
    let n ← deref nodes node
    let nodes ← modify nodes n.prev (fun x => { x with next := n.next })
    pure nodes

/-- What `vector<speciallist>::resize(n)` does on an empty vector: `n` lists,
each built by its own constructor call. -/
def speciallist.resize : Nat → List Node → List speciallist × List Node
  | 0, nodes => ([], nodes)
  | n + 1, nodes =>
    let r := speciallist.new nodes
    let rs := speciallist.resize n r.2
    (r.1 :: rs.1, rs.2)

/-! ## `unordered_map<uint32_t, shared_ptr<Node>>`

Only `find`, `operator[]`, `erase` and `size` are used by the source, so the
table is an association list with at most one entry per key. -/

/-- One per-set lookup table. -/
abbrev umap := List (Nat × Ptr)

/-- The call `m.find(k)`: `none` stands for `m.end()`. -/
def umap.find : umap → Nat → Option Ptr
  | [], _ => none
  | (k', v) :: m, k => if k' = k then some v else umap.find m k

/-- The statement `m[k] = v`. -/
def umap.assign : umap → Nat → Ptr → umap
  | [], k, v => [(k, v)]
  | (k', v') :: m, k, v => if k' = k then (k, v) :: m else (k', v') :: umap.assign m k v

/-- The expression `m[k]` read as a value: the table after the access (a missing
key is inserted with an empty pointer) and the pointer stored under `k`. -/
def umap.subscript (m : umap) (k : Nat) : umap × Ptr :=
  match umap.find m k with
  | some v => (m, v)
  | none => (umap.assign m k none, none)

/-- The call `m.erase(k)`. -/
def umap.erase : umap → Nat → umap
  | [], _ => []
  | (k', v) :: m, k => if k' = k then m else (k', v) :: umap.erase m k

/-- The call `m.size()`. -/
def umap.size (m : umap) : Nat := m.length

/-! ## `class Cache` (lines 125-265) -/

/-- The data members of `Cache`.  The three `uint64_t&` members are bound by
the constructor to its own by-value parameters `refs`, `misses`, `penalties`
(lines 157-158), not to the global counters: once the constructor has
returned they refer to storage that is no longer alive, and what a write
through them does is not fixed by the language.  The fields `cache_refs`,
`cache_misses`, `cache_penalties` record, per object, the values written
through these members as if each object had cells of its own; they say
nothing about the statistics globals, which are fields of `Program` and which
no function of the source writes after `init_cache`. -/
structure Cache where
  sets_ : Nat
  assoc_ : Nat
  hittime_ : Nat
  next_level_cache_ : Ptr
  hash_tables_ : List umap
  lists_ : List speciallist
  block_bits_ : Nat
  set_bits_ : Nat
  set_mask_ : Nat
  cache_refs : Nat
  cache_misses : Nat
  cache_penalties : Nat
  deriving DecidableEq, Repr

/-- The store the cache code runs in: the allocated list nodes, the allocated
`Cache` objects, and the three static members `Cache::inclusive`,
`Cache::blocksize`, `Cache::memspeed`. -/
structure World where
  nodes : List Node
  caches : List Cache
  inclusive : Bool
  blocksize : Nat
  memspeed : Nat
  deriving DecidableEq, Repr

/-- Halving loop behind `ilog2`: the number of times `x` can be halved before
it drops below `2`, at most `fuel` times. -/
def ilog2Aux : Nat → Nat → Nat
  | 0, _ => 0
  | fuel + 1, x => if 2 ≤ x then ilog2Aux fuel (x / 2) + 1 else 0

/-- The expression `(int)log2(x)` for a `uint32_t` argument `x ≥ 1`: the
position of the highest set bit.  For `x = 0` the source converts minus
infinity to `int`, which the language leaves open (an x86-64 build stores
`INT_MIN`, and its shift instructions then use the count modulo 32, which is
0).  The embedding takes `0` there, so for `x = 0` the fields `block_bits_` and
`set_bits_` hold the shift count in effect and not the stored bit pattern.
This concerns a level with `sets_ = 0`, which uses neither its set index nor
its tag, and every level built while `Cache::blocksize` is 0. -/
def ilog2 (x : Nat) : Nat := ilog2Aux x x

/-- The method `find_target_set`: `(addr >> block_bits_) & set_mask_`. -/
def Cache.find_target_set (c : Cache) (addr : Nat) : Nat :=
  (addr >>> c.block_bits_) &&& c.set_mask_

/-- The method `find_tag`: `addr >> block_bits_ >> set_bits_`. -/
def Cache.find_tag (c : Cache) (addr : Nat) : Nat :=
  addr >>> c.block_bits_ >>> c.set_bits_

/-- The constructor `Cache(num_sets, num_assoc, hittime, refs, misses,
penalties)` run by `make_shared<Cache>`: returns the new object's pointer. -/
def Cache.new (w : World) (num_sets num_assoc hittime refs misses penalties : Nat) :
    Nat × World :=
  -- hash_tables_.resize(sets_); lists_.resize(sets_);
  let ls := speciallist.resize num_sets w.nodes
  -- set_bits_ = (int)log2(sets_);
  let set_bits := ilog2 num_sets
  let c : Cache :=
    { sets_ := num_sets
      assoc_ := num_assoc
      -- if(num_sets == 0) hittime_ = 0;
      hittime_ := if num_sets = 0 then 0 else hittime
      next_level_cache_ := none
      hash_tables_ := List.replicate num_sets []
      lists_ := ls.1
      -- block_bits_ = (int)log2(blocksize);
      block_bits_ := ilog2 w.blocksize
      set_bits_ := set_bits
      -- set_mask_ = (1 << set_bits_) - 1;
      set_mask_ := u32 ((1 <<< set_bits) - 1)
      cache_refs := refs
      cache_misses := misses
      cache_penalties := penalties }
  (w.caches.length, { w with nodes := ls.2, caches := w.caches ++ [c] })

/-- The method `set_next_level_cache`. -/
def Cache.set_next_level_cache (w : World) (self : Nat) (nlc : Ptr) : Res World := do
  let caches ← modify w.caches (some self) (fun c => { c with next_level_cache_ := nlc })
  pure { w with caches := caches }

/-- The method `is_hit`: `hash_tables_[target_set].find(tag) ==
hash_tables_[target_set].end()`. -/
def Cache.is_hit (c : Cache) (target_set tag : Nat) : Res Bool := do
  let t ← index c.hash_tables_ target_set
  pure (umap.find t tag).isNone

/-- The method `evict_block`. -/
def Cache.evict_block (w : World) (self : Nat) (addr : Nat) : Res (Nat × World) := do
  let c ← deref w.caches (some self)
  let target_set := c.find_target_set addr
  let tag := c.find_tag addr
  -- shared_ptr<Node<uint32_t>> block = lists_[target_set].pop_back();
  let l ← index c.lists_ target_set
  let (block, l, nodes) ← l.pop_back w.nodes
  let c := { c with lists_ := c.lists_.set target_set l }
  -- assert(block != nullptr);
  if block = none then Res.fault .assertFail else do
    -- hash_tables_[target_set].erase(tag);
    let t ← index c.hash_tables_ target_set
    let c := { c with hash_tables_ := c.hash_tables_.set target_set (umap.erase t tag) }
    -- return block->value;
    let b ← deref nodes block
    pure (b.value, { w with nodes := nodes, caches := w.caches.set self c })

/-- The method `add_block`; the reference parameter `evict_addr` is passed in
and handed back next to the returned flag. -/
def Cache.add_block (w : World) (self : Nat) (addr target_set tag evict_addr : Nat) :
    Res ((Bool × Nat) × World) := do
  let c ← deref w.caches (some self)
  let t ← index c.hash_tables_ target_set
  -- if (hash_tables_[target_set].size() <= this->assoc_)
  if umap.size t ≤ c.assoc_ then do
    -- auto block = lists_[target_set].push_front(addr);
    let l ← index c.lists_ target_set
    let (block, l, nodes) ← l.push_front w.nodes addr
    -- hash_tables_[target_set][tag] = block;
    let c := { c with
      lists_ := c.lists_.set target_set l
      hash_tables_ := c.hash_tables_.set target_set (umap.assign t tag block) }
    pure ((false, evict_addr), { w with nodes := nodes, caches := w.caches.set self c })
  else do
    -- evict_addr = evict_block(addr);
    let (a, w) ← Cache.evict_block w self addr
    pure ((true, a), w)

/-- Lines 239-242 of `access`, run when `add_block` reported an eviction:
`if(higher_level_cache && Cache::inclusive)` the victim is passed up with
`evict_block` and the returned address is asserted equal to it. -/
def Cache.pass_up (w : World) (higher_level_cache : Ptr) (evict_addr : Nat) : Res World :=
  match higher_level_cache with
  | some h =>
    if w.inclusive then do
      -- uint32_t a = higher_level_cache->evict_block(evict_addr);
      let (a, w) ← Cache.evict_block w h evict_addr
      -- assert(a == evict_addr);
      if a = evict_addr then pure w else Res.fault .assertFail
    else pure w
  | none => pure w

/-- Lines 235-249 of `access`: what the branch under `!is_hit(target_set, tag)`
does once `time_penalty` is known. -/
def Cache.settle (w : World) (self addr target_set tag access_time time_penalty : Nat)
    (higher_level_cache : Ptr) : Res (Nat × World) := do
  -- uint32_t evict_addr = 0; if(add_block(addr, target_set, tag, evict_addr))
  let ((evicted, evict_addr), w) ← Cache.add_block w self addr target_set tag 0
  let w ← if evicted then Cache.pass_up w higher_level_cache evict_addr else pure w
  -- this->cache_penalties += time_penalty;
  let caches ← modify w.caches (some self)
    (fun c => { c with cache_penalties := u64 (c.cache_penalties + time_penalty) })
  -- access_time += time_penalty;
  pure (u32 (access_time + time_penalty), { w with caches := caches })

/-- Lines 252-255 of `access`: the final `else` branch. -/
def Cache.relink (w : World) (self target_set tag access_time : Nat) : Res (Nat × World) := do
  let c ← deref w.caches (some self)
  -- shared_ptr<Node<uint32_t>> block = hash_tables_[target_set][tag];
  let t ← index c.hash_tables_ target_set
  let sub := umap.subscript t tag
  let block := sub.2
  let c := { c with hash_tables_ := c.hash_tables_.set target_set sub.1 }
  -- lists_[target_set].remove(block);
  let l ← index c.lists_ target_set
  let nodes ← l.remove w.nodes block
  -- lists_[target_set].push_front(block);
  let (l, nodes) ← l.push_front_node nodes block
  let c := { c with lists_ := c.lists_.set target_set l }
  pure (access_time, { w with nodes := nodes, caches := w.caches.set self c })

/-- The method `access(addr, higher_level_cache)` (lines 203-259).  The first
argument bounds the depth of the chain of `next_level_cache_` calls. -/
def Cache.access : Nat → World → Nat → Nat → Ptr → Res (Nat × World)
  | 0, _, _, _, _ => Res.fuel
  | fuel + 1, w, self, addr, higher_level_cache => do
    -- this->cache_refs++;
    let caches ← modify w.caches (some self)
      (fun c => { c with cache_refs := u64 (c.cache_refs + 1) })
    let w := { w with caches := caches }
    let c ← deref w.caches (some self)
    let target_set := c.find_target_set addr
    let tag := c.find_tag addr
    -- uint32_t access_time = this->hittime_;
    let access_time := c.hittime_
    -- if(this->sets_ == 0)
    if c.sets_ = 0 then
      match c.next_level_cache_ with
      | some n => do
        -- time_penalty = next_level_cache_->access(addr, nullptr);
        let (_, w) ← Cache.access fuel w n addr none
        -- return access_time;
        pure (access_time, w)
      | none =>
        -- time_penalty = Cache::memspeed; return access_time;
        pure (access_time, w)
    else do
      let hit ← c.is_hit target_set tag
      -- else if(!is_hit(target_set, tag))
      if !hit then do
        -- this->cache_misses++;
        let caches ← modify w.caches (some self)
          (fun c => { c with cache_misses := u64 (c.cache_misses + 1) })
        let w := { w with caches := caches }
        match c.next_level_cache_ with
        | some n => do
          -- time_penalty = next_level_cache_->access(addr, this);
          let (time_penalty, w) ← Cache.access fuel w n addr (some self)
          Cache.settle w self addr target_set tag access_time time_penalty higher_level_cache
        | none =>
          -- time_penalty = Cache::memspeed;
          Cache.settle w self addr target_set tag access_time w.memspeed higher_level_cache
      else
        Cache.relink w self target_set tag access_time

/-- The call of `add_block` as `access` makes it (lines 207, 208, 236, 237):
set and tag are those of `addr`, and `evict_addr` starts at `0`. -/
def Cache.fill (w : World) (self : Nat) (addr : Nat) : Res ((Bool × Nat) × World) := do
  let c ← deref w.caches (some self)
  Cache.add_block w self addr (c.find_target_set addr) (c.find_tag addr) 0

/-! ## `CacheWrapper`, the globals and the entry points (lines 29-59, 267-357) -/

/-- The class `CacheWrapper`: three `shared_ptr<Cache>`. -/
structure CacheWrapper where
  L1I : Ptr
  L1D : Ptr
  L2 : Ptr
  deriving DecidableEq, Repr

/-- The whole program state: the twelve configuration globals, the nine
statistics globals, the store, and the global `unique_ptr<CacheWrapper>
cache_wrapper` (`none` when it is empty). -/
structure Program where
  icacheSets : Nat
  icacheAssoc : Nat
  icacheHitTime : Nat
  dcacheSets : Nat
  dcacheAssoc : Nat
  dcacheHitTime : Nat
  l2cacheSets : Nat
  l2cacheAssoc : Nat
  l2cacheHitTime : Nat
  inclusive : Nat
  blocksize : Nat
  memspeed : Nat
  icacheRefs : Nat
  icacheMisses : Nat
  icachePenalties : Nat
  dcacheRefs : Nat
  dcacheMisses : Nat
  dcachePenalties : Nat
  l2cacheRefs : Nat
  l2cacheMisses : Nat
  l2cachePenalties : Nat
  store : World
  cache_wrapper : Option CacheWrapper
  deriving DecidableEq, Repr

/-- The constructor `CacheWrapper()` (lines 273-279): three `make_shared<Cache>`
calls on the globals, then the two `set_next_level_cache(L2)` calls. -/
def CacheWrapper.new (p : Program) : Res (CacheWrapper × World) := do
  let r1 := Cache.new p.store p.icacheSets p.icacheAssoc p.icacheHitTime
    p.icacheRefs p.icacheMisses p.icachePenalties
  let r2 := Cache.new r1.2 p.dcacheSets p.dcacheAssoc p.dcacheHitTime
    p.dcacheRefs p.dcacheMisses p.dcachePenalties
  let r3 := Cache.new r2.2 p.l2cacheSets p.l2cacheAssoc p.l2cacheHitTime
    p.l2cacheRefs p.l2cacheMisses p.l2cachePenalties
  let w ← Cache.set_next_level_cache r3.2 r1.1 (some r3.1)
  let w ← Cache.set_next_level_cache w r2.1 (some r3.1)
  pure ({ L1I := some r1.1, L1D := some r2.1, L2 := some r3.1 }, w)

/-- Depth budget handed to `Cache.access` by the entry points: one more than the
number of `Cache` objects, which every chain of distinct levels stays below. -/
def World.depth (w : World) : Nat := w.caches.length + 1

/-- The method `CacheWrapper::icache_access`: `L1I->access(addr, nullptr)`. -/
def CacheWrapper.icache_access (cw : CacheWrapper) (w : World) (addr : Nat) :
    Res (Nat × World) :=
  match cw.L1I with
  | none => Res.fault .nullDeref
  | some l1i => Cache.access w.depth w l1i addr none

/-- The method `CacheWrapper::dcache_access`: `L1D->access(addr, nullptr)`. -/
def CacheWrapper.dcache_access (cw : CacheWrapper) (w : World) (addr : Nat) :
    Res (Nat × World) :=
  match cw.L1D with
  | none => Res.fault .nullDeref
  | some l1d => Cache.access w.depth w l1d addr none

/-- The function `init_cache` (lines 301-320): the nine counters are set to
zero and `cache_wrapper` is assigned `unique_ptr<CacheWrapper>()`, an empty
pointer; no `CacheWrapper` is constructed. -/
def init_cache (p : Program) : Program :=
  { p with
    icacheRefs := 0
    icacheMisses := 0
    icachePenalties := 0
    dcacheRefs := 0
    dcacheMisses := 0
    dcachePenalties := 0
    l2cacheRefs := 0
    l2cacheMisses := 0
    l2cachePenalties := 0
    cache_wrapper := none }

/-- The function `icache_access` (line 332): `cache_wrapper->icache_access(addr)`. -/
def icache_access (p : Program) (addr : Nat) : Res (Nat × Program) :=
  match p.cache_wrapper with
  | none => Res.fault .nullDeref
  | some cw => do
    let (t, w) ← cw.icache_access p.store addr
    pure (t, { p with store := w })

/-- The function `dcache_access` (line 344): `cache_wrapper->dcache_access(addr)`. -/
def dcache_access (p : Program) (addr : Nat) : Res (Nat × Program) :=
  match p.cache_wrapper with
  | none => Res.fault .nullDeref
  | some cw => do
    let (t, w) ← cw.dcache_access p.store addr
    pure (t, { p with store := w })

/-- The function `l2cache_access` (line 356): `return memspeed;`. -/
def l2cache_access (p : Program) (_addr : Nat) : Nat := p.memspeed

/-! ## Observations on a level -/

/-- Values met when following `next` from `p` until `stop`, at most `fuel`
steps. -/
def speciallist.walk (nodes : List Node) (stop : Ptr) : Nat → Ptr → List Nat
  | 0, _ => []
  | fuel + 1, p =>
    if p = stop then [] else
      match deref nodes p with
      | .ok n => n.value :: speciallist.walk nodes stop fuel n.next
      | _ => []

/-- The addresses linked between the two sentinels, most recently used first. -/
def speciallist.values (l : speciallist) (nodes : List Node) : List Nat :=
  match deref nodes l.head_ with
  | .ok h => speciallist.walk nodes l.tail_ nodes.length h.next
  | _ => []

/-- Recency order of set `set` of level `self`: the addresses of its linked
lines, most recently used first. -/
def Cache.order (w : World) (self set : Nat) : List Nat :=
  match w.caches[self]? with
  | some c =>
    match c.lists_[set]? with
    | some l => l.values w.nodes
    | none => []
  | none => []

/-- The tags that are keys of the lookup table of set `set` of level `self`. -/
def Cache.tags (w : World) (self set : Nat) : List Nat :=
  match w.caches[self]? with
  | some c =>
    match c.hash_tables_[set]? with
    | some t => t.map Prod.fst
    | none => []
  | none => []

/-- Whether the tag of `addr` is a key of the lookup table of the set of `addr`
in level `self`. -/
def Cache.resident (w : World) (self addr : Nat) : Bool :=
  match w.caches[self]? with
  | some c =>
    match c.hash_tables_[c.find_target_set addr]? with
    | some t => (umap.find t (c.find_tag addr)).isSome
    | none => false
  | none => false

/-- The three counter cells of level `self`: references, misses, penalties. -/
def Cache.counters (w : World) (self : Nat) : Option (Nat × Nat × Nat) :=
  (w.caches[self]?).map (fun c => (c.cache_refs, c.cache_misses, c.cache_penalties))

/-! ## Start states and test programs

Each test program below is a short sequence of calls of the methods above,
returning what it observed. -/

/-- The store before any object is allocated, with the three static members of
`Cache` holding the given values. -/
def World.init (inclusive : Bool) (blocksize memspeed : Nat) : World :=
  { nodes := [], caches := [], inclusive := inclusive, blocksize := blocksize,
    memspeed := memspeed }

/-- The store as lines 288-290 leave it at program start.  The initialisers
`(inclusive) ? true : false`, `blocksize` and `memspeed` are evaluated during
static initialisation, when the globals of these names and the static members
themselves are still zero, so the three static members start as `false`, `0`,
`0`; no statement of the file assigns them afterwards. -/
def World.start : World := World.init false 0 0

/-- A program state whose globals hold the given configuration, with zeroed
counters, no allocated object, an empty `cache_wrapper`, and static members of
`Cache` set by hand to agree with the globals `inclusive`, `blocksize`,
`memspeed`.  The source has no statement that makes them agree: the state the
program itself is in after reading its configuration is `Program.configured`
below, whose static members are those of `World.start`. -/
def Program.ofConfig (icacheSets icacheAssoc icacheHitTime dcacheSets dcacheAssoc
    dcacheHitTime l2cacheSets l2cacheAssoc l2cacheHitTime inclusive blocksize
    memspeed : Nat) : Program :=
  { icacheSets := icacheSets, icacheAssoc := icacheAssoc, icacheHitTime := icacheHitTime
    dcacheSets := dcacheSets, dcacheAssoc := dcacheAssoc, dcacheHitTime := dcacheHitTime
    l2cacheSets := l2cacheSets, l2cacheAssoc := l2cacheAssoc, l2cacheHitTime := l2cacheHitTime
    inclusive := inclusive, blocksize := blocksize, memspeed := memspeed
    icacheRefs := 0, icacheMisses := 0, icachePenalties := 0
    dcacheRefs := 0, dcacheMisses := 0, dcachePenalties := 0
    l2cacheRefs := 0, l2cacheMisses := 0, l2cachePenalties := 0
    store := World.init (decide (inclusive ≠ 0)) blocksize memspeed
    cache_wrapper := none }

/-- The configuration of the worked example: I$ and D$ with 4 sets, 2 ways, hit
time 1; L2 with 1 set, 2 ways, hit time 10; not inclusive; 16-byte blocks;
memory latency 100. -/
def Program.worked : Program := Program.ofConfig 4 2 1 4 2 1 1 2 10 0 16 100

/-- Test program: one level `Cache(4, 2, 1)` without next level, block size 16,
memory latency 100.  Address `0x00` is inserted with `add_block`; then
`is_hit(0, 0)` and `access(0x00, nullptr)` are called.  Observed: whether tag 0
is a key of set 0 before the access, the value of `is_hit`, the returned
latency, and the counters after the access. -/
def Scenario.presentTag : Res (Bool × Bool × Nat × Option (Nat × Nat × Nat)) := do
  let (c, w) := Cache.new (World.init false 16 100) 4 2 1 0 0 0
  let (_, w) ← Cache.fill w c 0x00
  let obj ← deref w.caches (some c)
  let hit ← obj.is_hit 0 0
  let (t, w1) ← Cache.access 1 w c 0x00 none
  pure (Cache.resident w c 0x00, hit, t, Cache.counters w1 c)

/-- Test program: the hierarchy built by `CacheWrapper()` on the worked
configuration (its objects are number 0 for I$, 1 for D$, 2 for L2 in the
store); `0x00` is inserted into L2 and into I$ with `add_block`, then
`icache_access(0x00)` is called.  Observed: whether `0x00` is resident in I$
before the call, the returned latency, the counters of I$ and of L2 after it. -/
def Scenario.presentTagTwoLevels :
    Res (Bool × Nat × Option (Nat × Nat × Nat) × Option (Nat × Nat × Nat)) := do
  let (cw, w) ← CacheWrapper.new Program.worked
  let (_, w) ← Cache.fill w 2 0x00
  let (_, w) ← Cache.fill w 0 0x00
  let (t, w1) ← cw.icache_access w 0x00
  pure (Cache.resident w 0 0x00, t, Cache.counters w1 0, Cache.counters w1 2)

/-- The level `Cache(4, 2, 1)` of the worked example, freshly constructed, with
block size 16 and memory latency 100. -/
def Scenario.freshLevel : Nat × World := Cache.new (World.init false 16 100) 4 2 1 0 0 0

/-- Test program: `CacheWrapper()` is run on the globals of `p` and the new
hierarchy receives its first call, `icache_access(addr)`. -/
def CacheWrapper.firstAccess (p : Program) (addr : Nat) : Res (Nat × World) := do
  let (cw, w) ← CacheWrapper.new p
  cw.icache_access w addr

/-- Object `i` of the store is a level with at least one set and with no key in
any of its lookup tables (the state a constructor call leaves it in). -/
def World.EmptyLevel (w : World) (i : Nat) : Prop :=
  ∃ c, w.caches[i]? = some c ∧ c.sets_ ≠ 0 ∧ ∀ t ∈ c.hash_tables_, t = []

/-- Test program: a fresh level `Cache(1, 2, 1)` (one set, associativity 2),
block size 16; `0x00`, `0x10` fill the set, then `0x20` and `0x30` are inserted
with `add_block`.  Observed: the results of the third and fourth `add_block`,
the recency order and lookup keys after the third, and after the fourth. -/
def Scenario.lru :
    Res ((Bool × Nat) × List Nat × List Nat × (Bool × Nat) × List Nat × List Nat) := do
  let (c, w) := Cache.new (World.init false 16 100) 1 2 1 0 0 0
  let (_, w) ← Cache.fill w c 0x00
  let (_, w) ← Cache.fill w c 0x10
  let (r3, w3) ← Cache.fill w c 0x20
  let (r4, w4) ← Cache.fill w3 c 0x30
  pure (r3, Cache.order w3 c 0, Cache.tags w3 c 0, r4, Cache.order w4 c 0, Cache.tags w4 c 0)

/-- Test program: the hierarchy built by `CacheWrapper()` with I$, D$ and L2 of
one set and associativity 1, hit times 1, 1, 10, inclusive, block size 16,
memory latency 100 (objects 0, 1, 2 of the store are I$, D$, L2).  `0x00` then
`0x10` are inserted into L2 and `0x00` into I$ with `add_block`; then `icache_access(0x00)` is called.  Observed: recency
order of I$ and of L2 and lookup keys of L2 before the call; the returned
latency; whether `0x00` is resident in I$ and in L2 after the call, and the
recency order of L2 after it. -/
def Scenario.inclusion :
    Res (List Nat × List Nat × List Nat × Nat × Bool × Bool × List Nat) := do
  let (cw, w) ← CacheWrapper.new (Program.ofConfig 1 1 1 1 1 1 1 1 10 1 16 100)
  let (_, w) ← Cache.fill w 2 0x00
  let (_, w) ← Cache.fill w 2 0x10
  let (_, w) ← Cache.fill w 0 0x00
  let (t, w1) ← cw.icache_access w 0x00
  pure (Cache.order w 0 0, Cache.order w 2 0, Cache.tags w 2 0, t,
    Cache.resident w1 0 0x00, Cache.resident w1 2 0x00, Cache.order w1 2 0)

/-- Test program: as `Scenario.inclusion` but I$ has associativity 2 and holds
`0x00` (older) and `0x10` (newer), and L2 holds `0x10` (older) and `0x00`
(newer); then `icache_access(0x10)` is called. -/
def Scenario.inclusionAssert : Res (Nat × World) := do
  let (cw, w) ← CacheWrapper.new (Program.ofConfig 1 2 1 1 2 1 1 1 10 1 16 100)
  let (_, w) ← Cache.fill w 2 0x10
  let (_, w) ← Cache.fill w 2 0x00
  let (_, w) ← Cache.fill w 0 0x00
  let (_, w) ← Cache.fill w 0 0x10
  cw.icache_access w 0x10

/-- Test program: a fresh level `Cache(1, 1, 1)`, block size 16; `0x00` and
`0x10` are inserted with `add_block`, then `0x20`, whose tag is absent, is
inserted.  Observed: the result of the third `add_block`, whether `0x20` is
resident afterwards, and the recency order afterwards. -/
def Scenario.insertWithVictim : Res ((Bool × Nat) × Bool × List Nat) := do
  let (c, w) := Cache.new (World.init false 16 100) 1 1 1 0 0 0
  let (_, w) ← Cache.fill w c 0x00
  let (_, w) ← Cache.fill w c 0x10
  let (r, w) ← Cache.fill w c 0x20
  pure (r, Cache.resident w c 0x20, Cache.order w c 0)

/-- Test program: a fresh level `Cache(1, 1, 1)`, memory latency 100; `0x00` and
`0x10` are inserted with `add_block`, then `access(0x10, nullptr)` is called.
Observed: the returned latency, the counters after the call (the call is
counted as a miss), whether `0x10` is resident afterwards, and the recency
order afterwards. -/
def Scenario.countedMiss : Res (Nat × Option (Nat × Nat × Nat) × Bool × List Nat) := do
  let (c, w) := Cache.new (World.init false 16 100) 1 1 1 0 0 0
  let (_, w) ← Cache.fill w c 0x00
  let (_, w) ← Cache.fill w c 0x10
  let (t, w) ← Cache.access 1 w c 0x10 none
  pure (t, Cache.counters w c, Cache.resident w c 0x10, Cache.order w c 0)

/-- Test program: a fresh level `Cache(1, 2, 1)`, block size 16; `0x00` then
`0x10` are inserted with `add_block`, then `evict_block(0x10)` is called.
Observed: recency order and lookup keys before the call, the returned address,
recency order and lookup keys after it. -/
def Scenario.forcedEvict : Res (List Nat × List Nat × Nat × List Nat × List Nat) := do
  let (c, w) := Cache.new (World.init false 16 100) 1 2 1 0 0 0
  let (_, w) ← Cache.fill w c 0x00
  let (_, w) ← Cache.fill w c 0x10
  let (a, w1) ← Cache.evict_block w c 0x10
  pure (Cache.order w c 0, Cache.tags w c 0, a, Cache.order w1 c 0, Cache.tags w1 c 0)

/-- Test program: a level constructed with `num_sets = 0` and hit time 1, no
next level, memory latency 100; `access(0x00, nullptr)` is called.  Observed:
the returned latency and the counters afterwards. -/
def Scenario.bypassMemory : Res (Nat × Option (Nat × Nat × Nat)) := do
  let (b, w) := Cache.new (World.init false 16 100) 0 2 1 0 0 0
  let (t, w) ← Cache.access 1 w b 0x00 none
  pure (t, Cache.counters w b)

/-- Test program: a level `b` constructed with `num_sets = 0` is wired to a
level `c = Cache(1, 2, 10)` into which `0x00` was inserted with `add_block`.
Observed: the latency of `c->access(0x00, nullptr)` and the latency of
`b->access(0x00, nullptr)`, both from the same state, and the counters of `c`
after the call on `b`. -/
def Scenario.bypassWired : Res (Nat × Nat × Option (Nat × Nat × Nat)) := do
  let (b, w) := Cache.new (World.init false 16 100) 0 2 1 0 0 0
  let (c, w) := Cache.new w 1 2 10 0 0 0
  let w ← Cache.set_next_level_cache w b (some c)
  let (_, w) ← Cache.fill w c 0x00
  let (t1, _) ← Cache.access 2 w c 0x00 none
  let (t2, w2) ← Cache.access 2 w b 0x00 none
  pure (t1, t2, Cache.counters w2 c)

/-- The program state in which `cache_wrapper` owns a `CacheWrapper` built by
the constructor of lines 273-279 from the globals of `p` (the state a call
`cache_wrapper.reset(new CacheWrapper())` would leave; `init_cache` itself
leaves `cache_wrapper` empty). -/
def Program.withWrapper (p : Program) : Res Program := do
  let (cw, w) ← CacheWrapper.new p
  pure { p with store := w, cache_wrapper := some cw }

/-- The nine statistics globals, in the order of lines 49-59. -/
def Program.statistics (p : Program) : List Nat :=
  [p.icacheRefs, p.icacheMisses, p.icachePenalties,
   p.dcacheRefs, p.dcacheMisses, p.dcachePenalties,
   p.l2cacheRefs, p.l2cacheMisses, p.l2cachePenalties]

/-- Test program: one level `Cache(4, 2, 1)` without next level, block size 16,
memory latency 100; `0x00` is inserted with `add_block` and then
`access(0x00, nullptr)` is called twice in a row.  Observed: the two returned
latencies, the counter cells and the recency order of set 0 after the second
call. -/
def Scenario.repeated : Res (Nat × Nat × Option (Nat × Nat × Nat) × List Nat) := do
  let (c, w) := Cache.new (World.init false 16 100) 4 2 1 0 0 0
  let (_, w) ← Cache.fill w c 0x00
  let (t1, w) ← Cache.access 1 w c 0x00 none
  let (t2, w) ← Cache.access 1 w c 0x00 none
  pure (t1, t2, Cache.counters w c, Cache.order w c 0)

/-- Test program: one level `Cache(1, 1, 1)` without next level, memory latency
100; `0x00` and `0x10` are inserted with `add_block`, then
`access(0x10, nullptr)` is called.  Observed: the latency of that call and the
outcome of calling `access(0x10, nullptr)` once more right after it. -/
def Scenario.repeatedAfterEviction : Res (Nat × Res Nat) := do
  let (c, w) := Cache.new (World.init false 16 100) 1 1 1 0 0 0
  let (_, w) ← Cache.fill w c 0x00
  let (_, w) ← Cache.fill w c 0x10
  let (t1, w) ← Cache.access 1 w c 0x10 none
  pure (t1, (Cache.access 1 w c 0x10 none).bind (fun r => Res.ok r.1))

/-- Test program: the globals hold the worked configuration and `cache_wrapper`
owns the hierarchy built by `CacheWrapper()`; `0x00` is inserted into L2 and
into I$ with `add_block`; then `icache_access(0x00)` is called.  Observed: the
returned latency, the counter cells of the I$ object and of the L2 object
after the call, and the nine statistics globals after the call. -/
def Scenario.statistics :
    Res (Nat × Option (Nat × Nat × Nat) × Option (Nat × Nat × Nat) × List Nat) := do
  let p ← Program.withWrapper Program.worked
  let (_, w) ← Cache.fill p.store 2 0x00
  let (_, w) ← Cache.fill w 0 0x00
  let (t, p1) ← icache_access { p with store := w } 0x00
  pure (t, Cache.counters p1.store 0, Cache.counters p1.store 2, p1.statistics)

/-- Test program: one level `Cache(2, 2, 1)` (two sets), block size 16, memory
latency 100; `0x00`, then `0x20` (both set 0) and `0x10` (set 1) are inserted
with `add_block`; then `access(0x00, nullptr)` is called.  Observed: recency
order of set 0 before the call, the returned latency, recency order and lookup
keys of set 0 and recency order of set 1 after the call. -/
def Scenario.hitGrows : Res (List Nat × Nat × List Nat × List Nat × List Nat) := do
  let (c, w) := Cache.new (World.init false 16 100) 2 2 1 0 0 0
  let (_, w) ← Cache.fill w c 0x00
  let (_, w) ← Cache.fill w c 0x20
  let (_, w) ← Cache.fill w c 0x10
  let (t, w1) ← Cache.access 1 w c 0x00 none
  pure (Cache.order w c 0, t, Cache.order w1 c 0, Cache.tags w1 c 0, Cache.order w1 c 1)

/-- Test program: one level `Cache(1, 1, 1)`, block size 16, memory latency
100; `0x00` then `0x10` are inserted with `add_block`; then
`access(0x00, nullptr)` is called.  Observed: lookup keys and recency order of
set 0 before the call, the returned latency, lookup keys and recency order
after the call. -/
def Scenario.hitEvictsItself : Res (List Nat × List Nat × Nat × List Nat × List Nat) := do
  let (c, w) := Cache.new (World.init false 16 100) 1 1 1 0 0 0
  let (_, w) ← Cache.fill w c 0x00
  let (_, w) ← Cache.fill w c 0x10
  let (t, w1) ← Cache.access 1 w c 0x00 none
  pure (Cache.tags w c 0, Cache.order w c 0, t, Cache.tags w1 c 0, Cache.order w1 c 0)

/-- Test program: the hierarchy built by `CacheWrapper()` on the worked
configuration (objects 0, 1, 2 are I$, D$, L2); `0x40` is inserted into L2 and
into D$ with `add_block`.  Observed: whether `0x40` and `0x80` are resident in
D$; the latency of `dcache_access(0x40)` and the counter cells of D$ and L2
after it; and the outcome of `dcache_access(0x80)` from the same start. -/
def Scenario.crossLevel :
    Res (Bool × Bool × Nat × Option (Nat × Nat × Nat) × Option (Nat × Nat × Nat) × Res Nat) := do
  let (cw, w) ← CacheWrapper.new Program.worked
  let (_, w) ← Cache.fill w 2 0x40
  let (_, w) ← Cache.fill w 1 0x40
  let (t, w1) ← cw.dcache_access w 0x40
  pure (Cache.resident w 1 0x40, Cache.resident w 1 0x80, t, Cache.counters w1 1,
    Cache.counters w1 2, (cw.dcache_access w 0x80).bind (fun r => Res.ok r.1))

/-- The object that the constructor call `Cache(num_sets, num_assoc, hittime,
refs, misses, penalties)` allocates in store `w`. -/
def Cache.built (w : World) (num_sets num_assoc hittime refs misses penalties : Nat) :
    Option Cache :=
  (Cache.new w num_sets num_assoc hittime refs misses penalties).2.caches[
    (Cache.new w num_sets num_assoc hittime refs misses penalties).1]?

/-- The object of `Scenario.freshLevel` written out: `Cache(4, 2, 1)` with
16-byte blocks, its four empty lookup tables and four empty recency lists
(sentinels are nodes 0 to 7). -/
def Scenario.freshObject : Cache :=
  { sets_ := 4, assoc_ := 2, hittime_ := 1, next_level_cache_ := none
    hash_tables_ := [[], [], [], []]
    lists_ := [{ head_ := some 0, tail_ := some 1, size_ := 0 },
               { head_ := some 2, tail_ := some 3, size_ := 0 },
               { head_ := some 4, tail_ := some 5, size_ := 0 },
               { head_ := some 6, tail_ := some 7, size_ := 0 }]
    block_bits_ := 4, set_bits_ := 2, set_mask_ := 3
    cache_refs := 0, cache_misses := 0, cache_penalties := 0 }

/-- Test program: `0x00` is inserted with `add_block` into the level of
`Scenario.freshLevel`; the result is the object of the level afterwards. -/
def Scenario.filled : Res Cache := do
  let (_, w) ← Cache.fill Scenario.freshLevel.2 Scenario.freshLevel.1 0x00
  deref w.caches (some Scenario.freshLevel.1)

/-- The object that `Scenario.filled` returns, written out: tag 0 is a key of
set 0 (its node is number 8). -/
def Scenario.filledObject : Cache :=
  { Scenario.freshObject with
    hash_tables_ := [[(0, some 8)], [], [], []]
    lists_ := [{ head_ := some 0, tail_ := some 1, size_ := 1 },
               { head_ := some 2, tail_ := some 3, size_ := 0 },
               { head_ := some 4, tail_ := some 5, size_ := 0 },
               { head_ := some 6, tail_ := some 7, size_ := 0 }] }

/-! ## Footprints

Predicates used to say which objects of the store a call may touch. -/

/-- Pointer `p` is null or points to an object for which `S` holds. -/
def ptrIn (S : Nat → Prop) (p : Ptr) : Prop := ∀ q, p = some q → S q

/-- Every link stored in a node of `S` leads back into `S`. -/
def LinksClosed (S : Nat → Prop) (nodes : List Node) : Prop :=
  ∀ p n, S p → nodes[p]? = some n → ptrIn S n.next ∧ ptrIn S n.prev

/-- What relates a node heap to a later one when only nodes of `S` were written:
the links of `S` still lead into `S`, every node outside `S` is unchanged, and
no node was freed. -/
structure NodeStep (S : Nat → Prop) (nodes nodes1 : List Node) : Prop where
  closed : LinksClosed S nodes1
  outside : ∀ x, ¬ S x → nodes1[x]? = nodes[x]?
  length_le : nodes.length ≤ nodes1.length

/-- The levels `A` and the list nodes `Own` form a footprint of store `w`: the
next level of a level of `A` is in `A`; the sentinels of the recency lists of
the levels of `A` are nodes of `Own`; the links of nodes of `Own` stay in
`Own`; and every node allocated from now on counts as a node of `Own`. -/
structure World.Footprint (w : World) (A Own : Nat → Prop) : Prop where
  next_closed : ∀ j c, A j → w.caches[j]? = some c → ptrIn A c.next_level_cache_
  sentinels : ∀ j c l, A j → w.caches[j]? = some c → l ∈ c.lists_ →
    ptrIn Own l.head_ ∧ ptrIn Own l.tail_
  links : LinksClosed Own w.nodes
  later : ∀ p, w.nodes.length ≤ p → Own p

/-- Store `w1` differs from store `w` only inside the footprint: every `Cache`
object outside `A` and every list node outside `Own` is the same in both, and
`Cache::inclusive` is the same. -/
structure World.FrameTo (A Own : Nat → Prop) (w w1 : World) : Prop where
  caches_out : ∀ i, ¬ A i → w1.caches[i]? = w.caches[i]?
  nodes_out : ∀ p, ¬ Own p → w1.nodes[p]? = w.nodes[p]?
  inclusive_eq : w1.inclusive = w.inclusive

/-- Test program: a two-level hierarchy, not inclusive, block size 16, memory
latency 100.  Object 0 is the upper level `Cache(1, 1, 1)` holding `0x00`;
object 1 is the lower level `Cache(1, 1, 10)`, wired as next level of object 0
and holding `0x00` (older) and `0x10`, one line more than its associativity.
The result is the store after these calls. -/
def Scenario.frameSetup : Res World := do
  let (i, w) := Cache.new (World.init false 16 100) 1 1 1 0 0 0
  let (_, w) ← Cache.fill w i 0x00
  let (l2, w) := Cache.new w 1 1 10 0 0 0
  let w ← Cache.set_next_level_cache w i (some l2)
  let (_, w) ← Cache.fill w l2 0x00
  let (_, w) ← Cache.fill w l2 0x10
  pure w

/-- The store that `Scenario.frameSetup` builds, written out: nodes 0 to 2
belong to the recency list of the upper level, nodes 3 to 6 to that of the
lower level. -/
def Scenario.frameWorld : World :=
  { nodes := [{ value := 0, next := some 2, prev := none },
              { value := 0, next := none, prev := some 2 },
              { value := 0, next := some 1, prev := some 0 },
              { value := 0, next := some 6, prev := none },
              { value := 0, next := none, prev := some 5 },
              { value := 0, next := some 4, prev := some 6 },
              { value := 16, next := some 5, prev := some 3 }]
    caches := [{ sets_ := 1, assoc_ := 1, hittime_ := 1, next_level_cache_ := some 1
                 hash_tables_ := [[(0, some 2)]]
                 lists_ := [{ head_ := some 0, tail_ := some 1, size_ := 1 }]
                 block_bits_ := 4, set_bits_ := 0, set_mask_ := 0
                 cache_refs := 0, cache_misses := 0, cache_penalties := 0 },
               { sets_ := 1, assoc_ := 1, hittime_ := 10, next_level_cache_ := none
                 hash_tables_ := [[(0, some 5), (1, some 6)]]
                 lists_ := [{ head_ := some 3, tail_ := some 4, size_ := 2 }]
                 block_bits_ := 4, set_bits_ := 0, set_mask_ := 0
                 cache_refs := 0, cache_misses := 0, cache_penalties := 0 }]
    inclusive := false, blocksize := 16, memspeed := 100 }

/-- The store after `access(0x10, requester)` was called on the lower level of
`Scenario.frameWorld` with the upper level as requester: the lower level has
unlinked its line `0x00`. -/
def Scenario.frameAfter : World :=
  { nodes := [{ value := 0, next := some 2, prev := none },
              { value := 0, next := none, prev := some 2 },
              { value := 0, next := some 1, prev := some 0 },
              { value := 0, next := some 6, prev := none },
              { value := 0, next := none, prev := some 6 },
              { value := 0, next := some 4, prev := some 6 },
              { value := 16, next := some 4, prev := some 3 }]
    caches := [{ sets_ := 1, assoc_ := 1, hittime_ := 1, next_level_cache_ := some 1
                 hash_tables_ := [[(0, some 2)]]
                 lists_ := [{ head_ := some 0, tail_ := some 1, size_ := 1 }]
                 block_bits_ := 4, set_bits_ := 0, set_mask_ := 0
                 cache_refs := 0, cache_misses := 0, cache_penalties := 0 },
               { sets_ := 1, assoc_ := 1, hittime_ := 10, next_level_cache_ := none
                 hash_tables_ := [[(0, some 5)]]
                 lists_ := [{ head_ := some 3, tail_ := some 4, size_ := 1 }]
                 block_bits_ := 4, set_bits_ := 0, set_mask_ := 0
                 cache_refs := 1, cache_misses := 1, cache_penalties := 100 }]
    inclusive := false, blocksize := 16, memspeed := 100 }

/-- Nodes `a` and `b` are neighbours in heap `nodes`: `a->next` is `b` and
`b->prev` is `a`. -/
def speciallist.Link (nodes : List Node) (a b : Nat) : Prop :=
  ∃ na nb, nodes[a]? = some na ∧ nodes[b]? = some nb ∧ na.next = some b ∧ nb.prev = some a

/-- The list `l` is a well-formed doubly linked list in heap `nodes` whose
lines are the nodes `ps`, most recently used first: going from the head
sentinel through `ps` to the tail sentinel every two consecutive nodes are
neighbours, no node occurs twice, and `size_` is the number of lines. -/
def speciallist.Repr (l : speciallist) (nodes : List Node) (ps : List Nat) : Prop :=
  ∃ h t, l.head_ = some h ∧ l.tail_ = some t ∧ l.size_ = ps.length ∧
    (h :: (ps ++ [t])).Nodup ∧ List.Chain' (speciallist.Link nodes) (h :: (ps ++ [t]))

/-- The value stored in node `p` (`0` if there is no such node). -/
def valueAt (nodes : List Node) (p : Nat) : Nat :=
  match nodes[p]? with
  | some n => n.value
  | none => 0

/-- A program state whose globals hold the given configuration, with zeroed
counters, no allocated object and an empty `cache_wrapper`, in which the static
members of `Cache` are what lines 288-290 leave them (`World.start`): the file
has no statement that copies the globals `inclusive`, `blocksize`, `memspeed`
into `Cache::inclusive`, `Cache::blocksize`, `Cache::memspeed`. -/
def Program.configured (icacheSets icacheAssoc icacheHitTime dcacheSets dcacheAssoc
    dcacheHitTime l2cacheSets l2cacheAssoc l2cacheHitTime inclusive blocksize
    memspeed : Nat) : Program :=
  { icacheSets := icacheSets, icacheAssoc := icacheAssoc, icacheHitTime := icacheHitTime
    dcacheSets := dcacheSets, dcacheAssoc := dcacheAssoc, dcacheHitTime := dcacheHitTime
    l2cacheSets := l2cacheSets, l2cacheAssoc := l2cacheAssoc, l2cacheHitTime := l2cacheHitTime
    inclusive := inclusive, blocksize := blocksize, memspeed := memspeed
    icacheRefs := 0, icacheMisses := 0, icachePenalties := 0
    dcacheRefs := 0, dcacheMisses := 0, dcachePenalties := 0
    l2cacheRefs := 0, l2cacheMisses := 0, l2cachePenalties := 0
    store := World.start
    cache_wrapper := none }

/-- Test program on a start state `p` whose three levels are configured with 0
sets: `init_cache()` runs, `cache_wrapper` is given the hierarchy built by
`CacheWrapper()`, then `icache_access(0x00)` and `dcache_access(0x40)` are
called.  Observed: the two returned latencies and the nine statistics globals
after the two calls. -/
def Scenario.bypassStatistics (p : Program) : Res (Nat × Nat × List Nat) := do
  let p ← Program.withWrapper (init_cache p)
  let (ti, p1) ← icache_access p 0x00
  let (td, p2) ← dcache_access p1 0x40
  pure (ti, td, p2.statistics)

/-- Test program on a start state `p`: `init_cache()` runs, `cache_wrapper` is
given the hierarchy built by `CacheWrapper()`, then `icache_access(0x00)` is
called.  Observed: the outcome of the call. -/
def Scenario.firstCall (p : Program) : Res (Res Nat) := do
  let p ← Program.withWrapper (init_cache p)
  pure ((icache_access p 0x00).bind (fun r => Res.ok r.1))

/-- Test program on a start state `p`: the hierarchy is built by
`CacheWrapper()`.  Observed on its I$ object: set index and tag that
`find_target_set` and `find_tag` give for `0x135`, and for `0x13A`. -/
def Scenario.decomposition (p : Program) : Res ((Nat × Nat) × (Nat × Nat)) := do
  let (cw, w) ← CacheWrapper.new p
  let c ← deref w.caches cw.L1I
  pure ((c.find_target_set 0x135, c.find_tag 0x135),
    (c.find_target_set 0x13A, c.find_tag 0x13A))

/-- Test program with `Cache::inclusive` true, block size 16, memory latency
100: an upper level `u = Cache(1, 2, 1)` wired to a lower level
`l = Cache(1, 1, 10)`.  In `u`, `0x00` then `0x10` are inserted with
`add_block` and `evict_block(0x10)` is called (it unlinks `0x00` and erases the
tag of `0x10`); in `l`, `0x10` then `0x20` are inserted.  Then
`l->access(0x20, u)` is called.  Observed: whether `0x10` is resident in `u`
before the call, the recency orders of `u` and of `l` before it, the returned
latency, the recency orders of `l` and of `u` after it. -/
def Scenario.silentViolation :
    Res (Bool × List Nat × List Nat × Nat × List Nat × List Nat) := do
  let (u, w) := Cache.new (World.init true 16 100) 1 2 1 0 0 0
  let (l, w) := Cache.new w 1 1 10 0 0 0
  let w ← Cache.set_next_level_cache w u (some l)
  let (_, w) ← Cache.fill w u 0x00
  let (_, w) ← Cache.fill w u 0x10
  let (_, w) ← Cache.evict_block w u 0x10
  let (_, w) ← Cache.fill w l 0x10
  let (_, w) ← Cache.fill w l 0x20
  let (t, w1) ← Cache.access 1 w l 0x20 (some u)
  pure (Cache.resident w u 0x10, Cache.order w u 0, Cache.order w l 0, t,
    Cache.order w1 l 0, Cache.order w1 u 0)

/-- Test program on the start state in which the globals configure I$, D$ and
L2 with one set and associativity 1, hit times 1, 1, 10, `inclusive = 1`, and
the static members are as the program leaves them: `init_cache()` runs,
`cache_wrapper` is given the hierarchy built by `CacheWrapper()` (objects 0, 1,
2 are I$, D$, L2); `0x10` then `0x00` are inserted into L2 and `0x00` into I$
with `add_block`; then `icache_access(0x00)` is called.  Observed: the static
`Cache::inclusive`, the recency order of L2 and whether `0x10` is resident in
I$ before the call, the returned latency, the recency order of L2 after it. -/
def Scenario.configuredInclusive : Res (Bool × List Nat × Bool × Nat × List Nat) := do
  let p ← Program.withWrapper (init_cache (Program.configured 1 1 1 1 1 1 1 1 10 1 16 100))
  let (_, w) ← Cache.fill p.store 2 0x10
  let (_, w) ← Cache.fill w 2 0x00
  let (_, w) ← Cache.fill w 0 0x00
  let (t, p1) ← icache_access { p with store := w } 0x00
  pure (w.inclusive, Cache.order w 2 0, Cache.resident w 0 0x10, t, Cache.order p1.store 2 0)

/-! ## States reached from freshly constructed levels -/

/-- Pointers met when following `next` from `p` until `stop`, at most `fuel`
steps. -/
def speciallist.walkNodes (nodes : List Node) (stop : Ptr) : Nat → Ptr → List Nat
  | 0, _ => []
  | fuel + 1, p =>
    if p = stop then [] else
      match p with
      | none => []
      | some q =>
        match nodes[q]? with
        | some n => q :: speciallist.walkNodes nodes stop fuel n.next
        | none => []

/-- The nodes linked between the two sentinels, most recently used first. -/
def speciallist.linked (l : speciallist) (nodes : List Node) : List Nat :=
  match deref nodes l.head_ with
  | .ok h => speciallist.walkNodes nodes l.tail_ nodes.length h.next
  | _ => []

/-- The nodes linked in the recency list of set `set` of level `self`. -/
def Cache.linked (w : World) (self set : Nat) : List Nat :=
  match w.caches[self]? with
  | some c =>
    match c.lists_[set]? with
    | some l => l.linked w.nodes
    | none => []
  | none => []

/-- What the lookup table of set `set` of level `self` holds under `tag`
(`none` when the tag is no key). -/
def Cache.lookup (w : World) (self set tag : Nat) : Option Ptr :=
  match w.caches[self]? with
  | some c =>
    match c.hash_tables_[set]? with
    | some t => umap.find t tag
    | none => none
  | none => none

/-- Lookup and recency list of every set describe the same lines: every node
linked in the recency list of a set carries an address of that set; a tag is a
key of the lookup of the set exactly when a node carrying an address with that
tag is linked in its recency list; and every such linked node is the one the
lookup holds under the tag (so there is one only). -/
def World.Consistent (w : World) : Prop :=
  ∀ (i : Nat) (c : Cache) (s tag : Nat), w.caches[i]? = some c → s < c.sets_ →
    (∀ p ∈ Cache.linked w i s, ∀ n, w.nodes[p]? = some n →
      c.find_target_set n.value = s) ∧
    ((∃ v, Cache.lookup w i s tag = some v) ↔
      ∃ p ∈ Cache.linked w i s, ∃ n, w.nodes[p]? = some n ∧ c.find_tag n.value = tag) ∧
    (∀ p ∈ Cache.linked w i s, ∀ n, w.nodes[p]? = some n → c.find_tag n.value = tag →
      Cache.lookup w i s tag = some (some p))

/-- Test program: a fresh level `Cache(1, 2, 1)`, block size 16; `0x00` then
`0x10` are inserted with direct calls of `add_block`, and `evict_block(0x10)` is
called.  The result is the store reached. -/
def Scenario.seeded : Res World := do
  let (c, w) := Cache.new (World.init false 16 100) 1 2 1 0 0 0
  let (_, w) ← Cache.fill w c 0x00
  let (_, w) ← Cache.fill w c 0x10
  let (_, w) ← Cache.evict_block w c 0x10
  pure w

/-- The store that `Scenario.seeded` reaches, written out: node 3, with address
`0x10`, is the only linked line, and the only key of the lookup is tag 0, held
by the unlinked node 2. -/
def Scenario.seededWorld : World :=
  { nodes := [{ value := 0, next := some 3, prev := none },
              { value := 0, next := none, prev := some 3 },
              { value := 0, next := some 1, prev := some 3 },
              { value := 16, next := some 1, prev := some 0 }]
    caches := [{ sets_ := 1, assoc_ := 2, hittime_ := 1, next_level_cache_ := none
                 hash_tables_ := [[(0, some 2)]]
                 lists_ := [{ head_ := some 0, tail_ := some 1, size_ := 1 }]
                 block_bits_ := 4, set_bits_ := 0, set_mask_ := 0
                 cache_refs := 0, cache_misses := 0, cache_penalties := 0 }]
    inclusive := false, blocksize := 16, memspeed := 100 }

/-! ## Basic facts about the store and the result type -/

@[simp] theorem Res.ok_bind {α β : Type} (a : α) (f : α → Res β) :
    (Res.ok a >>= f) = f a := rfl

@[simp] theorem Res.fault_bind {α β : Type} (e : Fault) (f : α → Res β) :
    (Res.fault e >>= f) = Res.fault e := rfl

@[simp] theorem Res.fuel_bind {α β : Type} (f : α → Res β) :
    ((Res.fuel : Res α) >>= f) = Res.fuel := rfl

@[simp] theorem Res.pure_eq {α : Type} (a : α) : (pure a : Res α) = Res.ok a := rfl

theorem lt_length_of_getElem? {α : Type} (heap : List α) (i : Nat) (a : α)
    (h : heap[i]? = some a) : i < heap.length := by
  rcases Nat.lt_or_ge i heap.length with h1 | h1
  · exact h1
  · rw [List.getElem?_eq_none h1] at h; cases h

theorem modify_of_getElem? {α : Type} (heap : List α) (i : Nat) (a : α) (f : α → α)
    (h : heap[i]? = some a) : modify heap (some i) f = Res.ok (heap.set i (f a)) := by
  simp [modify, h]

theorem deref_set_self {α : Type} (heap : List α) (i : Nat) (a b : α)
    (h : heap[i]? = some a) : deref (heap.set i b) (some i) = Res.ok b := by
  simp [deref, List.getElem?_set_self (lt_length_of_getElem? heap i a h)]

theorem deref_null {α : Type} (heap : List α) : deref heap none = Res.fault .nullDeref := rfl

theorem modify_null {α : Type} (heap : List α) (f : α → α) :
    modify heap none f = Res.fault .nullDeref := rfl

/-- Reading through a pointer gives a value or the null-dereference fault. -/
theorem deref_ok_or_null {α : Type} (heap : List α) (p : Ptr) :
    (∃ a, deref heap p = Res.ok a) ∨ deref heap p = Res.fault .nullDeref := by
  cases p with
  | none => exact Or.inr rfl
  | some i =>
    cases hi : heap[i]? with
    | none => right; simp [deref, hi]
    | some a => left; exact ⟨a, by simp [deref, hi]⟩

/-- The halving loop computes the binary logarithm once the budget covers the
argument. -/
theorem ilog2Aux_eq_log2 (fuel x : Nat) (h : x ≤ fuel) : ilog2Aux fuel x = Nat.log2 x := by
  induction fuel generalizing x with
  | zero =>
    have hx : x = 0 := by omega
    subst hx
    rw [Nat.log2]; simp [ilog2Aux]
  | succ n ih =>
    rw [Nat.log2, ilog2Aux]
    by_cases h2 : 2 ≤ x
    · simp only [h2, if_true, ge_iff_le]
      rw [ih]
      omega
    · simp [h2]

/-- The embedding of `(int)log2(x)` is the binary logarithm `Nat.log2`. -/
theorem ilog2_eq_log2 (x : Nat) : ilog2 x = Nat.log2 x :=
  ilog2Aux_eq_log2 x x (Nat.le_refl x)

/-! ## The final `else` branch of `access` is entered with an absent tag -/

/-- Linking an empty pointer at the front of a list faults. -/
theorem speciallist.push_front_node_null (l : speciallist) (nodes : List Node) :
    l.push_front_node nodes none = Res.fault .nullDeref := by
  unfold speciallist.push_front_node
  rcases deref_ok_or_null nodes l.head_ with ⟨a, ha⟩ | ha
  · simp [ha, modify_null]
  · simp [ha]

/-- Lines 252-255 on a tag that is not a key of the lookup: `operator[]` yields
an empty pointer and the list operations on it fault. -/
theorem Cache.relink_absent_tag_faults (w : World) (self ts tag time : Nat)
    (c : Cache) (t : umap) (hc : w.caches[self]? = some c)
    (ht : c.hash_tables_[ts]? = some t) (habs : umap.find t tag = none) :
    ∃ f, Cache.relink w self ts tag time = Res.fault f := by
  unfold Cache.relink
  simp only [deref, hc, Res.ok_bind, index, ht, umap.subscript, habs]
  cases hl : c.lists_[ts]? with
  | none => exact ⟨_, rfl⟩
  | some l =>
    simp only [Res.ok_bind]
    cases hr : l.remove w.nodes none with
    | ok ns => simp only [Res.ok_bind, speciallist.push_front_node_null]; exact ⟨_, rfl⟩
    | fault f => exact ⟨_, rfl⟩
    | fuel =>
      exfalso
      unfold speciallist.remove at hr
      split at hr
      · cases hr
      · simp [deref_null] at hr

/-- An access of a level with `sets_ ≠ 0` at an address whose tag is not a key
of the lookup of its set ends in a fault: `is_hit` is `true` there, so `access`
runs lines 252-255. -/
theorem Cache.access_absent_tag_faults (fuel : Nat) (w : World) (self addr : Nat) (h : Ptr)
    (c : Cache) (t : umap) (hc : w.caches[self]? = some c) (hs : c.sets_ ≠ 0)
    (ht : c.hash_tables_[c.find_target_set addr]? = some t)
    (habs : umap.find t (c.find_tag addr) = none) :
    ∃ f, Cache.access (fuel + 1) w self addr h = Res.fault f := by
  unfold Cache.access
  simp only [modify_of_getElem? _ _ _ _ hc, Res.ok_bind, deref_set_self _ _ _ _ hc]
  simp only [Cache.find_target_set, Cache.find_tag] at ht habs
  simp only [hs, if_false, Cache.is_hit, Cache.find_target_set, Cache.find_tag, index, ht,
    Res.ok_bind, Res.pure_eq, habs, Option.isNone_none, Bool.not_true]
  refine Cache.relink_absent_tag_faults _ self _ _ _
    { c with cache_refs := u64 (c.cache_refs + 1) } t ?_ ht habs
  simp [List.getElem?_set_self (lt_length_of_getElem? _ _ _ hc)]

/-- An access of a level with `sets_ ≠ 0` whose lookup tables are all empty
ends in a fault, at every address. -/
theorem Cache.access_empty_tables_faults (fuel : Nat) (w : World) (self addr : Nat) (h : Ptr)
    (c : Cache) (hc : w.caches[self]? = some c) (hs : c.sets_ ≠ 0)
    (hempty : ∀ t ∈ c.hash_tables_, t = []) :
    ∃ f, Cache.access (fuel + 1) w self addr h = Res.fault f := by
  cases ht : c.hash_tables_[c.find_target_set addr]? with
  | some t =>
    have ht0 : t = [] := hempty t (List.getElem?_mem ht)
    exact Cache.access_absent_tag_faults fuel w self addr h c t hc hs ht (by subst ht0; rfl)
  | none =>
    refine ⟨.outOfRange, ?_⟩
    unfold Cache.access
    simp only [modify_of_getElem? _ _ _ _ hc, Res.ok_bind, deref_set_self _ _ _ _ hc]
    simp only [Cache.find_target_set] at ht
    simp [hs, Cache.is_hit, Cache.find_target_set, index, ht]

theorem World.EmptyLevel.access_faults {w : World} {i : Nat} (he : w.EmptyLevel i)
    (fuel addr : Nat) (h : Ptr) : ∃ f, Cache.access (fuel + 1) w i addr h = Res.fault f := by
  obtain ⟨c, hc, hs, hempty⟩ := he
  exact Cache.access_empty_tables_faults fuel w i addr h c hc hs hempty

/-- The constructor leaves a level with `num_sets ≠ 0` empty. -/
theorem Cache.new_emptyLevel (w : World)
    (num_sets num_assoc hittime refs misses penalties : Nat) (hs : num_sets ≠ 0) :
    (Cache.new w num_sets num_assoc hittime refs misses penalties).2.EmptyLevel
      (Cache.new w num_sets num_assoc hittime refs misses penalties).1 := by
  refine ⟨_, List.getElem?_concat_length _ _, hs, ?_⟩
  intro t ht
  exact List.eq_of_mem_replicate ht

/-- Constructing another level does not touch the levels already there. -/
theorem Cache.new_keeps_emptyLevel (w : World)
    (num_sets num_assoc hittime refs misses penalties i : Nat) (he : w.EmptyLevel i) :
    (Cache.new w num_sets num_assoc hittime refs misses penalties).2.EmptyLevel i := by
  obtain ⟨c, hc, hs, hempty⟩ := he
  refine ⟨c, ?_, hs, hempty⟩
  show (w.caches ++ [_])[i]? = some c
  rw [List.getElem?_append_left (lt_length_of_getElem? _ _ _ hc)]
  exact hc

/-- Wiring a next level changes no lookup table. -/
theorem Cache.set_next_level_cache_cases (w : World) (j : Nat) (nlc : Ptr) :
    Cache.set_next_level_cache w j nlc = Res.fault .nullDeref ∨
    ∃ w1, Cache.set_next_level_cache w j nlc = Res.ok w1 ∧
      ∀ i, w.EmptyLevel i → w1.EmptyLevel i := by
  unfold Cache.set_next_level_cache
  cases hj : w.caches[j]? with
  | none => left; simp [modify, hj]
  | some cj =>
    right
    refine ⟨{ w with caches := w.caches.set j { cj with next_level_cache_ := nlc } },
      by simp only [modify_of_getElem? _ _ _ _ hj, Res.ok_bind, Res.pure_eq], ?_⟩
    rintro i ⟨c, hc, hs, hempty⟩
    by_cases hij : j = i
    · subst hij
      rw [hj] at hc
      cases hc
      exact ⟨_, List.getElem?_set_self (lt_length_of_getElem? _ _ _ hj), hs, hempty⟩
    · exact ⟨c, by simp only [List.getElem?_set_ne hij]; exact hc, hs, hempty⟩

/-- On the hierarchy that `CacheWrapper()` builds from a configuration with
`icacheSets ≠ 0`, the first `icache_access` ends in a fault at every address. -/
theorem CacheWrapper.firstAccess_faults (p : Program) (addr : Nat) (hs : p.icacheSets ≠ 0) :
    ∃ f, CacheWrapper.firstAccess p addr = Res.fault f := by
  have h3 := Cache.new_keeps_emptyLevel _ p.l2cacheSets p.l2cacheAssoc p.l2cacheHitTime
    p.l2cacheRefs p.l2cacheMisses p.l2cachePenalties _
    (Cache.new_keeps_emptyLevel _ p.dcacheSets p.dcacheAssoc p.dcacheHitTime
      p.dcacheRefs p.dcacheMisses p.dcachePenalties _
      (Cache.new_emptyLevel p.store p.icacheSets p.icacheAssoc p.icacheHitTime
        p.icacheRefs p.icacheMisses p.icachePenalties hs))
  unfold CacheWrapper.firstAccess CacheWrapper.new
  dsimp only
  generalize Cache.new p.store p.icacheSets p.icacheAssoc p.icacheHitTime
    p.icacheRefs p.icacheMisses p.icachePenalties = r1 at h3 ⊢
  generalize Cache.new r1.2 p.dcacheSets p.dcacheAssoc p.dcacheHitTime
    p.dcacheRefs p.dcacheMisses p.dcachePenalties = r2 at h3 ⊢
  generalize Cache.new r2.2 p.l2cacheSets p.l2cacheAssoc p.l2cacheHitTime
    p.l2cacheRefs p.l2cacheMisses p.l2cachePenalties = r3 at h3 ⊢
  rcases Cache.set_next_level_cache_cases r3.2 r1.1 (some r3.1) with hf | ⟨w1, hw1, hk1⟩
  · exact ⟨.nullDeref, by simp only [hf, Res.fault_bind]⟩
  · rcases Cache.set_next_level_cache_cases w1 r2.1 (some r3.1) with hf | ⟨w2, hw2, hk2⟩
    · exact ⟨.nullDeref, by simp only [hw1, Res.ok_bind, hf, Res.fault_bind]⟩
    · simp only [hw1, Res.ok_bind, hw2, Res.pure_eq, CacheWrapper.icache_access, World.depth]
      exact (hk2 _ (hk1 _ h3)).access_faults _ addr none

/-- Whenever lines 235-249 complete, the latency they give is the hit time plus
the penalty, truncated to 32 bits. -/
theorem Cache.settle_latency (w : World) (self addr ts tag time pen : Nat) (h : Ptr)
    (t : Nat) (w1 : World) (hr : Cache.settle w self addr ts tag time pen h = Res.ok (t, w1)) :
    t = u32 (time + pen) := by
  unfold Cache.settle at hr
  cases ha : Cache.add_block w self addr ts tag 0 with
  | fault f => simp [ha] at hr
  | fuel => simp [ha] at hr
  | ok r =>
    obtain ⟨⟨ev, ea⟩, w2⟩ := r
    simp only [ha, Res.ok_bind] at hr
    have fin : ∀ (w3 : World), (modify w3.caches (some self)
          (fun c => { c with cache_penalties := u64 (c.cache_penalties + pen) }) >>=
        fun caches => (Res.ok (u32 (time + pen), { w3 with caches := caches }) :
          Res (Nat × World))) = Res.ok (t, w1) → t = u32 (time + pen) := by
      intro w3 h3
      cases hm : modify w3.caches (some self)
          (fun c => { c with cache_penalties := u64 (c.cache_penalties + pen) }) with
      | fault f => simp [hm] at h3
      | fuel => simp [hm] at h3
      | ok cs =>
        simp only [hm, Res.ok_bind, Res.ok.injEq, Prod.mk.injEq] at h3
        exact h3.1.symm
    cases ev with
    | false => exact fin w2 (by simpa using hr)
    | true =>
      simp only [if_true] at hr
      cases hp : Cache.pass_up w2 h ea with
      | fault f => simp [hp] at hr
      | fuel => simp [hp] at hr
      | ok w3 =>
        simp only [hp, Res.ok_bind] at hr
        exact fin w3 hr

/-- With the tag present and no next level, `access` is the branch under
`!is_hit`: the miss counter is incremented and lines 235-249 run with
`Cache::memspeed` as penalty. -/
theorem Cache.access_present_tag (fuel : Nat) (w : World) (self addr : Nat) (h : Ptr)
    (c : Cache) (t : umap) (v : Ptr) (hc : w.caches[self]? = some c) (hs : c.sets_ ≠ 0)
    (hn : c.next_level_cache_ = none)
    (ht : c.hash_tables_[c.find_target_set addr]? = some t)
    (hpres : umap.find t (c.find_tag addr) = some v) :
    Cache.access (fuel + 1) w self addr h =
      Cache.settle
        { w with caches := w.caches.set self { c with
            cache_refs := u64 (c.cache_refs + 1), cache_misses := u64 (c.cache_misses + 1) } }
        self addr (c.find_target_set addr) (c.find_tag addr) c.hittime_ w.memspeed h := by
  have hlen := lt_length_of_getElem? _ _ _ hc
  unfold Cache.access
  simp only [modify_of_getElem? _ _ _ _ hc, Res.ok_bind, deref_set_self _ _ _ _ hc]
  simp only [Cache.find_target_set, Cache.find_tag] at ht hpres
  simp only [hs, if_false, Cache.is_hit, Cache.find_target_set, Cache.find_tag, index, ht,
    Res.ok_bind, Res.pure_eq, hpres, Option.isNone_some, Bool.not_false, if_true, hn]
  rw [modify_of_getElem? _ _ _ _ (List.getElem?_set_self hlen)]
  simp only [Res.ok_bind, List.set_set]

/-- With the tag present and no next level, a completed `access` returns the
hit time plus `Cache::memspeed` (truncated to 32 bits), not the hit time. -/
theorem Cache.access_present_tag_latency (fuel : Nat) (w : World) (self addr : Nat) (h : Ptr)
    (c : Cache) (t : umap) (v : Ptr) (hc : w.caches[self]? = some c) (hs : c.sets_ ≠ 0)
    (hn : c.next_level_cache_ = none)
    (ht : c.hash_tables_[c.find_target_set addr]? = some t)
    (hpres : umap.find t (c.find_tag addr) = some v)
    (lat : Nat) (w1 : World) (hr : Cache.access (fuel + 1) w self addr h = Res.ok (lat, w1)) :
    lat = u32 (c.hittime_ + w.memspeed) := by
  rw [Cache.access_present_tag fuel w self addr h c t v hc hs hn ht hpres] at hr
  exact Cache.settle_latency _ _ _ _ _ _ _ _ _ _ hr

/-- A level constructed with `num_sets = 0` and no next level returns latency
`0` from `access`, whatever `Cache::memspeed` is, and only counts the
reference. -/
theorem Cache.access_fresh_bypass (fuel : Nat) (w : World)
    (num_assoc hittime refs misses penalties addr : Nat) (h : Ptr) :
    ((Cache.access (fuel + 1) (Cache.new w 0 num_assoc hittime refs misses penalties).2
        (Cache.new w 0 num_assoc hittime refs misses penalties).1 addr h).val?).map Prod.fst
      = some 0 := by
  simp [Cache.access, Cache.new, modify, deref, speciallist.resize, Res.val?]

/-! ## The statistics globals -/

/-- No call of `icache_access` changes any of the nine statistics globals: the
counters a level updates are the cells its constructor bound, not the globals. -/
theorem icache_access_statistics (p : Program) (addr t : Nat) (p1 : Program)
    (h : icache_access p addr = Res.ok (t, p1)) : p1.statistics = p.statistics := by
  unfold icache_access at h
  cases hw : p.cache_wrapper with
  | none => simp [hw] at h
  | some cw =>
    simp only [hw] at h
    cases hr : cw.icache_access p.store addr with
    | fault f => simp [hr] at h
    | fuel => simp [hr] at h
    | ok r =>
      simp only [hr, Res.ok_bind, Res.pure_eq, Res.ok.injEq, Prod.mk.injEq] at h
      rw [← h.2]
      rfl

/-- No call of `dcache_access` changes any of the nine statistics globals. -/
theorem dcache_access_statistics (p : Program) (addr t : Nat) (p1 : Program)
    (h : dcache_access p addr = Res.ok (t, p1)) : p1.statistics = p.statistics := by
  unfold dcache_access at h
  cases hw : p.cache_wrapper with
  | none => simp [hw] at h
  | some cw =>
    simp only [hw] at h
    cases hr : cw.dcache_access p.store addr with
    | fault f => simp [hr] at h
    | fuel => simp [hr] at h
    | ok r =>
      simp only [hr, Res.ok_bind, Res.pure_eq, Res.ok.injEq, Prod.mk.injEq] at h
      rw [← h.2]
      rfl

/-! ## Address decomposition -/

theorem speciallist.resize_length (n : Nat) (nodes : List Node) :
    (speciallist.resize n nodes).1.length = n := by
  induction n generalizing nodes with
  | zero => rfl
  | succ k ih => simp [speciallist.resize, ih]

theorem ilog2_two_pow (k : Nat) : ilog2 (2 ^ k) = k := by
  rw [ilog2_eq_log2, Nat.log2_two_pow]

/-- The fields the constructor computes from its arguments and from
`Cache::blocksize`. -/
theorem Cache.built_eq (w : World) (num_sets num_assoc hittime refs misses penalties : Nat)
    (c : Cache) (hc : Cache.built w num_sets num_assoc hittime refs misses penalties = some c) :
    c.sets_ = num_sets ∧ c.hash_tables_ = List.replicate num_sets [] ∧
    c.lists_.length = num_sets ∧ c.block_bits_ = ilog2 w.blocksize ∧
    c.set_bits_ = ilog2 num_sets ∧ c.set_mask_ = u32 (1 <<< ilog2 num_sets - 1) := by
  unfold Cache.built Cache.new at hc
  dsimp only at hc
  rw [List.getElem?_concat_length] at hc
  cases hc
  exact ⟨rfl, rfl, speciallist.resize_length _ _, rfl, rfl, rfl⟩

/-- Remainder and quotient by `m` together determine a number. -/
theorem div_mod_pair_iff (x y m : Nat) :
    (x % m = y % m ∧ x / m = y / m) ↔ x = y := by
  constructor
  · rintro ⟨h1, h2⟩
    rw [← Nat.div_add_mod x m, ← Nat.div_add_mod y m, h1, h2]
  · rintro rfl; exact ⟨rfl, rfl⟩

theorem Res.bind_eq_ok {α β : Type} (x : Res α) (f : α → Res β) (b : β) :
    (x >>= f) = Res.ok b ↔ ∃ a, x = Res.ok a ∧ f a = Res.ok b := by
  cases x with
  | ok a => simp
  | fault e => simp
  | fuel => simp

theorem NodeStep.same (S : Nat → Prop) (nodes : List Node) (h : LinksClosed S nodes) :
    NodeStep S nodes nodes :=
  ⟨h, fun _ _ => rfl, Nat.le_refl _⟩

theorem NodeStep.andThen {S : Nat → Prop} {n0 n1 n2 : List Node}
    (h01 : NodeStep S n0 n1) (h12 : NodeStep S n1 n2) : NodeStep S n0 n2 :=
  ⟨h12.closed, fun x hx => (h12.outside x hx).trans (h01.outside x hx),
    Nat.le_trans h01.length_le h12.length_le⟩

theorem deref_links {S : Nat → Prop} {nodes : List Node} {p : Ptr} {n : Node}
    (hcl : LinksClosed S nodes) (hp : ptrIn S p) (h : deref nodes p = Res.ok n) :
    ptrIn S n.next ∧ ptrIn S n.prev := by
  cases p with
  | none => cases h
  | some q =>
    simp only [deref] at h
    cases hq : nodes[q]? with
    | none => simp [hq] at h
    | some a =>
      simp only [hq, Res.ok.injEq] at h
      subst h
      exact hcl q a (hp q rfl) hq

theorem modify_nodeStep {S : Nat → Prop} {nodes nodes1 : List Node} {p : Ptr} {f : Node → Node}
    (hcl : LinksClosed S nodes) (hp : ptrIn S p)
    (h : modify nodes p f = Res.ok nodes1)
    (hf : ∀ n, ptrIn S n.next ∧ ptrIn S n.prev → ptrIn S (f n).next ∧ ptrIn S (f n).prev) :
    NodeStep S nodes nodes1 := by
  cases p with
  | none => cases h
  | some q =>
    simp only [modify] at h
    cases hq : nodes[q]? with
    | none => simp [hq] at h
    | some a =>
      simp only [hq, Res.ok.injEq] at h
      subst h
      have hlt := lt_length_of_getElem? _ _ _ hq
      refine ⟨?_, ?_, by simp⟩
      · intro p n hSp hn
        by_cases hpq : q = p
        · subst hpq
          rw [List.getElem?_set_self hlt] at hn
          cases hn
          exact hf a (hcl q a hSp hq)
        · rw [List.getElem?_set_ne hpq] at hn
          exact hcl p n hSp hn
      · intro x hx
        have hne : q ≠ x := fun e => hx (e ▸ hp q rfl)
        exact List.getElem?_set_ne hne

theorem speciallist.push_front_node_step {S : Nat → Prop} {l l1 : speciallist}
    {nodes nodes1 : List Node} {node : Ptr}
    (hcl : LinksClosed S nodes) (hh : ptrIn S l.head_) (hn : ptrIn S node)
    (h : l.push_front_node nodes node = Res.ok (l1, nodes1)) :
    NodeStep S nodes nodes1 ∧ l1.head_ = l.head_ ∧ l1.tail_ = l.tail_ := by
  unfold speciallist.push_front_node at h
  simp only [Res.bind_eq_ok, Res.pure_eq, Res.ok.injEq, Prod.mk.injEq] at h
  obtain ⟨h0, hd0, n1, hm1, n2, hm2, h2, hd2, n3, hm3, n4, hm4, hl, hnodes⟩ := h
  subst hl hnodes
  have l0 := deref_links hcl hh hd0
  have s1 := modify_nodeStep hcl hn hm1 (fun n hx => ⟨l0.1, hx.2⟩)
  have s2 := modify_nodeStep s1.closed hn hm2 (fun n hx => ⟨hx.1, hh⟩)
  have l2 := deref_links s2.closed hh hd2
  have s3 := modify_nodeStep s2.closed l2.1 hm3 (fun n hx => ⟨hx.1, hn⟩)
  have s4 := modify_nodeStep s3.closed hh hm4 (fun n hx => ⟨hn, hx.2⟩)
  exact ⟨((s1.andThen s2).andThen s3).andThen s4, rfl, rfl⟩

theorem speciallist.push_front_step {S : Nat → Prop} {l l1 : speciallist}
    {nodes nodes1 : List Node} {val : Nat} {node : Ptr}
    (hcl : LinksClosed S nodes) (hlater : ∀ p, nodes.length ≤ p → S p)
    (hh : ptrIn S l.head_)
    (h : l.push_front nodes val = Res.ok (node, l1, nodes1)) :
    NodeStep S nodes nodes1 ∧ l1.head_ = l.head_ ∧ l1.tail_ = l.tail_ := by
  unfold speciallist.push_front at h
  simp only [Res.bind_eq_ok, Res.pure_eq, Res.ok.injEq, Prod.mk.injEq] at h
  obtain ⟨⟨l2, nodes2⟩, hp, -, hl, hnodes⟩ := h
  subst hl hnodes
  have hnew : S nodes.length := hlater _ (Nat.le_refl _)
  have s0 : NodeStep S nodes (nodes ++ [{ value := val, next := none, prev := none }]) := by
    refine ⟨?_, ?_, by simp⟩
    · intro p n hSp hn
      by_cases hlt : p < nodes.length
      · rw [List.getElem?_append_left hlt] at hn
        exact hcl p n hSp hn
      · have hge : nodes.length ≤ p := Nat.le_of_not_lt hlt
        rw [List.getElem?_append_right hge] at hn
        cases hx : p - nodes.length with
        | zero =>
          simp [hx] at hn
          subst hn
          exact ⟨fun q hq => (nomatch hq), fun q hq => (nomatch hq)⟩
        | succ k => simp [hx] at hn
    · intro x hx
      have hlt : x < nodes.length := by
        by_contra hge
        exact hx (hlater x (Nat.le_of_not_lt hge))
      exact List.getElem?_append_left hlt
  have hnode : ptrIn S (some nodes.length) := fun q hq => by cases hq; exact hnew
  obtain ⟨s1, e1, e2⟩ := speciallist.push_front_node_step s0.closed hh hnode hp
  exact ⟨s0.andThen s1, e1, e2⟩

theorem speciallist.pop_back_step {S : Nat → Prop} {l l1 : speciallist}
    {nodes nodes1 : List Node} {block : Ptr}
    (hcl : LinksClosed S nodes) (ht : ptrIn S l.tail_)
    (h : l.pop_back nodes = Res.ok (block, l1, nodes1)) :
    NodeStep S nodes nodes1 ∧ l1.head_ = l.head_ ∧ l1.tail_ = l.tail_ := by
  unfold speciallist.pop_back at h
  split at h
  · simp only [Res.pure_eq, Res.ok.injEq, Prod.mk.injEq] at h
    obtain ⟨-, hl, hnodes⟩ := h
    subst hl hnodes
    exact ⟨NodeStep.same S nodes hcl, rfl, rfl⟩
  · simp only [Res.bind_eq_ok, Res.pure_eq, Res.ok.injEq, Prod.mk.injEq] at h
    obtain ⟨t, hd0, tp, hd1, n1, hm1, t2, hd2, n2, hm2, -, hl, hnodes⟩ := h
    subst hl hnodes
    have l0 := deref_links hcl ht hd0
    have l1 := deref_links hcl l0.2 hd1
    have s1 := modify_nodeStep hcl ht hm1 (fun n hx => ⟨hx.1, l1.2⟩)
    have l2 := deref_links s1.closed ht hd2
    have s2 := modify_nodeStep s1.closed l2.2 hm2 (fun n hx => ⟨ht, hx.2⟩)
    exact ⟨s1.andThen s2, rfl, rfl⟩

theorem deref_eq_ok {α : Type} {heap : List α} {i : Nat} {a : α}
    (h : deref heap (some i) = Res.ok a) : heap[i]? = some a := by
  simp only [deref] at h
  cases hi : heap[i]? with
  | none => simp [hi] at h
  | some b => simp only [hi, Res.ok.injEq] at h; rw [h]

theorem index_eq_ok {α : Type} {v : List α} {i : Nat} {a : α}
    (h : index v i = Res.ok a) : v[i]? = some a := by
  simp only [index] at h
  cases hi : v[i]? with
  | none => simp [hi] at h
  | some b => simp only [hi, Res.ok.injEq] at h; rw [h]

theorem modify_eq_ok {α : Type} {heap heap1 : List α} {i : Nat} {f : α → α}
    (h : modify heap (some i) f = Res.ok heap1) :
    ∃ a, heap[i]? = some a ∧ heap1 = heap.set i (f a) := by
  simp only [modify] at h
  cases hi : heap[i]? with
  | none => simp [hi] at h
  | some b => simp only [hi, Res.ok.injEq] at h; exact ⟨b, rfl, h.symm⟩

theorem World.FrameTo.unchanged (A Own : Nat → Prop) (w : World) : World.FrameTo A Own w w :=
  ⟨fun _ _ => rfl, fun _ _ => rfl, rfl⟩

theorem World.FrameTo.followedBy {A Own : Nat → Prop} {w0 w1 w2 : World}
    (h01 : World.FrameTo A Own w0 w1) (h12 : World.FrameTo A Own w1 w2) :
    World.FrameTo A Own w0 w2 :=
  ⟨fun i hi => (h12.caches_out i hi).trans (h01.caches_out i hi),
    fun p hp => (h12.nodes_out p hp).trans (h01.nodes_out p hp),
    h12.inclusive_eq.trans h01.inclusive_eq⟩

/-- Replacing the object of a level of the footprint and writing only nodes of
the footprint keeps the footprint and stays inside it. -/
theorem World.Footprint.update {w : World} {A Own : Nat → Prop} (hF : w.Footprint A Own)
    {self : Nat} {c c1 : Cache} {nodes1 : List Node} (hA : A self)
    (hc : w.caches[self]? = some c)
    (hnext : c1.next_level_cache_ = c.next_level_cache_)
    (hl : ∀ l ∈ c1.lists_, ptrIn Own l.head_ ∧ ptrIn Own l.tail_)
    (hn : NodeStep Own w.nodes nodes1) :
    World.Footprint { w with nodes := nodes1, caches := w.caches.set self c1 } A Own ∧
    World.FrameTo A Own w { w with nodes := nodes1, caches := w.caches.set self c1 } := by
  have hlt := lt_length_of_getElem? _ _ _ hc
  refine ⟨⟨?_, ?_, hn.closed, ?_⟩, ⟨?_, hn.outside, rfl⟩⟩
  · intro j c2 hj hc2
    by_cases hjs : self = j
    · subst hjs
      rw [List.getElem?_set_self hlt] at hc2
      cases hc2
      rw [hnext]
      exact hF.next_closed self c hj hc
    · rw [List.getElem?_set_ne hjs] at hc2
      exact hF.next_closed j c2 hj hc2
  · intro j c2 l hj hc2 hmem
    by_cases hjs : self = j
    · subst hjs
      rw [List.getElem?_set_self hlt] at hc2
      cases hc2
      exact hl l hmem
    · rw [List.getElem?_set_ne hjs] at hc2
      exact hF.sentinels j c2 l hj hc2 hmem
  · intro p hp
    exact hF.later p (Nat.le_trans hn.length_le hp)
  · intro i hi
    have hne : self ≠ i := fun e => hi (e ▸ hA)
    exact List.getElem?_set_ne hne

/-- The sentinels of a list vector stay in the footprint when one list is
replaced by a list with the same sentinels. -/
theorem sentinels_set {Own : Nat → Prop} {ls : List speciallist} {l l1 : speciallist} {i : Nat}
    (hls : ∀ x ∈ ls, ptrIn Own x.head_ ∧ ptrIn Own x.tail_)
    (hl : ls[i]? = some l) (hh : l1.head_ = l.head_) (ht : l1.tail_ = l.tail_) :
    ∀ x ∈ ls.set i l1, ptrIn Own x.head_ ∧ ptrIn Own x.tail_ := by
  intro x hx
  rcases List.mem_or_eq_of_mem_set hx with hmem | rfl
  · exact hls x hmem
  · rw [hh, ht]
    exact hls l (List.getElem?_mem hl)

theorem Cache.evict_block_step {w w1 : World} {A Own : Nat → Prop} {self addr a : Nat}
    (hF : w.Footprint A Own) (hA : A self)
    (h : Cache.evict_block w self addr = Res.ok (a, w1)) :
    w1.Footprint A Own ∧ World.FrameTo A Own w w1 := by
  unfold Cache.evict_block at h
  simp only [Res.bind_eq_ok] at h
  obtain ⟨c, hc, l, hl, ⟨block, l1, nodes1⟩, hpop, h⟩ := h
  have hc' := deref_eq_ok hc
  have hl' := index_eq_ok hl
  dsimp only at h
  split at h
  · cases h
  · simp only [Res.bind_eq_ok, Res.pure_eq, Res.ok.injEq, Prod.mk.injEq] at h
    obtain ⟨t, -, b, -, -, hw⟩ := h
    subst hw
    have hs := hF.sentinels self c
    obtain ⟨st, e1, e2⟩ := speciallist.pop_back_step hF.links
      (hs l hA hc' (List.getElem?_mem hl')).2 hpop
    exact hF.update hA hc' rfl
      (by
        dsimp only
        exact sentinels_set (fun x hx => hs x hA hc' hx) hl' e1 e2) st

theorem Cache.add_block_step {w w1 : World} {A Own : Nat → Prop}
    {self addr ts tag ev : Nat} {r : Bool × Nat}
    (hF : w.Footprint A Own) (hA : A self)
    (h : Cache.add_block w self addr ts tag ev = Res.ok (r, w1)) :
    w1.Footprint A Own ∧ World.FrameTo A Own w w1 := by
  unfold Cache.add_block at h
  simp only [Res.bind_eq_ok] at h
  obtain ⟨c, hc, t, -, h⟩ := h
  have hc' := deref_eq_ok hc
  split at h
  · simp only [Res.bind_eq_ok, Res.pure_eq, Res.ok.injEq, Prod.mk.injEq] at h
    obtain ⟨l, hl, ⟨block, l1, nodes1⟩, hpush, -, hw⟩ := h
    have hl' := index_eq_ok hl
    subst hw
    have hs := hF.sentinels self c
    obtain ⟨st, e1, e2⟩ := speciallist.push_front_step hF.links hF.later
      (hs l hA hc' (List.getElem?_mem hl')).1 hpush
    exact hF.update hA hc' rfl
      (by
        dsimp only
        exact sentinels_set (fun x hx => hs x hA hc' hx) hl' e1 e2) st
  · simp only [Res.bind_eq_ok, Res.pure_eq, Res.ok.injEq, Prod.mk.injEq] at h
    obtain ⟨⟨a, w2⟩, hev, -, hw⟩ := h
    subst hw
    exact Cache.evict_block_step hF hA hev

theorem Cache.pass_up_step {w w1 : World} {A Own : Nat → Prop} {h : Ptr} {v : Nat}
    (hF : w.Footprint A Own) (hg : w.inclusive = false ∨ ptrIn A h)
    (hr : Cache.pass_up w h v = Res.ok w1) :
    w1.Footprint A Own ∧ World.FrameTo A Own w w1 := by
  unfold Cache.pass_up at hr
  cases h with
  | none =>
    simp only [Res.pure_eq, Res.ok.injEq] at hr
    subst hr
    exact ⟨hF, World.FrameTo.unchanged A Own w⟩
  | some j =>
    dsimp only at hr
    split at hr
    · rename_i hincl
      rcases hg with hg | hg
      · rw [hg] at hincl; cases hincl
      · simp only [Res.bind_eq_ok] at hr
        obtain ⟨⟨a, w2⟩, hev, hr⟩ := hr
        dsimp only at hr
        split at hr
        · simp only [Res.pure_eq, Res.ok.injEq] at hr
          subst hr
          exact Cache.evict_block_step hF (hg j rfl) hev
        · cases hr
    · simp only [Res.pure_eq, Res.ok.injEq] at hr
      subst hr
      exact ⟨hF, World.FrameTo.unchanged A Own w⟩

/-- Updating a counter cell of a level of the footprint. -/
theorem World.Footprint.modify_cache {w : World} {A Own : Nat → Prop} (hF : w.Footprint A Own)
    {self : Nat} {f : Cache → Cache} {cs : List Cache} (hA : A self)
    (h : modify w.caches (some self) f = Res.ok cs)
    (hf : ∀ c, (f c).next_level_cache_ = c.next_level_cache_ ∧ (f c).lists_ = c.lists_) :
    World.Footprint { w with caches := cs } A Own ∧
    World.FrameTo A Own w { w with caches := cs } := by
  obtain ⟨c, hc, rfl⟩ := modify_eq_ok h
  exact hF.update hA hc (hf c).1
    (fun l hl => hF.sentinels self c l hA hc ((hf c).2 ▸ hl))
    (NodeStep.same Own w.nodes hF.links)

theorem Cache.settle_step {w w1 : World} {A Own : Nat → Prop}
    {self addr ts tag time pen t : Nat} {h : Ptr}
    (hF : w.Footprint A Own) (hA : A self) (hg : w.inclusive = false ∨ ptrIn A h)
    (hr : Cache.settle w self addr ts tag time pen h = Res.ok (t, w1)) :
    w1.Footprint A Own ∧ World.FrameTo A Own w w1 := by
  unfold Cache.settle at hr
  simp only [Res.bind_eq_ok] at hr
  obtain ⟨⟨⟨ev, ea⟩, w2⟩, hadd, hr⟩ := hr
  obtain ⟨hF2, fr2⟩ := Cache.add_block_step hF hA hadd
  have hg2 : w2.inclusive = false ∨ ptrIn A h := by rw [fr2.inclusive_eq]; exact hg
  have fin : ∀ w3 : World, w3.Footprint A Own → World.FrameTo A Own w w3 →
      (modify w3.caches (some self)
          (fun c => { c with cache_penalties := u64 (c.cache_penalties + pen) }) >>=
        fun caches => (Res.ok (u32 (time + pen), { w3 with caches := caches }) :
          Res (Nat × World))) = Res.ok (t, w1) →
      w1.Footprint A Own ∧ World.FrameTo A Own w w1 := by
    intro w3 hF3 fr3 h3
    simp only [Res.bind_eq_ok, Res.ok.injEq, Prod.mk.injEq] at h3
    obtain ⟨cs, hm, -, hw⟩ := h3
    subst hw
    obtain ⟨hF4, fr4⟩ := hF3.modify_cache hA hm (fun c => ⟨rfl, rfl⟩)
    exact ⟨hF4, fr3.followedBy fr4⟩
  cases ev with
  | false => exact fin w2 hF2 fr2 (by simpa using hr)
  | true =>
    simp only [if_true, Res.bind_eq_ok] at hr
    obtain ⟨w3, hp, hr⟩ := hr
    obtain ⟨hF3, fr3⟩ := Cache.pass_up_step hF2 hg2 hp
    exact fin w3 hF3 (fr2.followedBy fr3) (by simpa [Res.bind_eq_ok] using hr)

theorem Cache.is_hit_eq_ok {c : Cache} {ts tag : Nat} {b : Bool}
    (h : c.is_hit ts tag = Res.ok b) :
    ∃ t, c.hash_tables_[ts]? = some t ∧ b = (umap.find t tag).isNone := by
  unfold Cache.is_hit at h
  simp only [Res.bind_eq_ok, Res.pure_eq, Res.ok.injEq] at h
  obtain ⟨t, ht, hb⟩ := h
  exact ⟨t, index_eq_ok ht, hb.symm⟩

/-- A completed `access` on a level of the footprint, with a requester that is
not consulted (`Cache::inclusive` false) or absent or itself in the footprint,
keeps the footprint and changes nothing outside it. -/
theorem Cache.access_step (fuel : Nat) :
    ∀ {w w1 : World} {A Own : Nat → Prop} {self addr t : Nat} {h : Ptr},
      w.Footprint A Own → A self → (w.inclusive = false ∨ ptrIn A h) →
      Cache.access fuel w self addr h = Res.ok (t, w1) →
      w1.Footprint A Own ∧ World.FrameTo A Own w w1 := by
  induction fuel with
  | zero =>
    intro w w1 A Own self addr t h _ _ _ hr
    cases hr
  | succ fuel ih =>
    intro w w1 A Own self addr t h hF hA hg hr
    unfold Cache.access at hr
    simp only [Res.bind_eq_ok] at hr
    obtain ⟨cs1, hm1, c, hc, hr⟩ := hr
    obtain ⟨hF1, fr1⟩ := hF.modify_cache hA hm1 (fun c => ⟨rfl, rfl⟩)
    have hc' := deref_eq_ok hc
    have hnone : ∀ x : World, x.inclusive = false ∨ ptrIn A (none : Ptr) :=
      fun _ => Or.inr (fun q hq => (nomatch hq))
    have hself : ∀ x : World, x.inclusive = false ∨ ptrIn A (some self) :=
      fun _ => Or.inr (fun q hq => by cases hq; exact hA)
    split at hr
    · -- bypass level
      cases hn : c.next_level_cache_ with
      | none =>
        simp only [hn, Res.pure_eq, Res.ok.injEq, Prod.mk.injEq] at hr
        rw [← hr.2]
        exact ⟨hF1, fr1⟩
      | some n =>
        simp only [hn, Res.bind_eq_ok, Res.pure_eq, Res.ok.injEq, Prod.mk.injEq] at hr
        obtain ⟨⟨t2, w2⟩, hrec, -, hw⟩ := hr
        subst hw
        have hAn : A n := hF1.next_closed self c hA hc' n hn
        obtain ⟨hF2, fr2⟩ := ih hF1 hAn (hnone _) hrec
        exact ⟨hF2, fr1.followedBy fr2⟩
    · simp only [Res.bind_eq_ok] at hr
      obtain ⟨hit, hhit, hr⟩ := hr
      obtain ⟨tb, htb, hb⟩ := Cache.is_hit_eq_ok hhit
      cases hit with
      | true =>
        exfalso
        simp only [Bool.not_true] at hr
        have habs : umap.find tb (c.find_tag addr) = none := by
          cases hfind : umap.find tb (c.find_tag addr) with
          | none => rfl
          | some v => rw [hfind] at hb; cases hb
        obtain ⟨f, hf⟩ := Cache.relink_absent_tag_faults { w with caches := cs1 } self _ _ c.hittime_ c tb hc' htb habs
        simp only [Bool.false_eq_true, if_false] at hr
        rw [hf] at hr
        cases hr
      | false =>
        simp only [Bool.not_false, if_true, Res.bind_eq_ok] at hr
        obtain ⟨cs2, hm2, hr⟩ := hr
        obtain ⟨hF2, fr2⟩ := hF1.modify_cache hA hm2 (fun c => ⟨rfl, rfl⟩)
        have hg2 : ∀ x : World, World.FrameTo A Own w x → (x.inclusive = false ∨ ptrIn A h) :=
          fun x fx => by rw [fx.inclusive_eq]; exact hg
        cases hn : c.next_level_cache_ with
        | none =>
          simp only [hn] at hr
          obtain ⟨hF3, fr3⟩ := Cache.settle_step hF2 hA (hg2 _ (fr1.followedBy fr2)) hr
          exact ⟨hF3, (fr1.followedBy fr2).followedBy fr3⟩
        | some n =>
          simp only [hn, Res.bind_eq_ok] at hr
          obtain ⟨⟨pen, w3⟩, hrec, hr⟩ := hr
          have hAn : A n := hF1.next_closed self c hA hc' n hn
          obtain ⟨hF3, fr3⟩ := ih hF2 hAn (hself _) hrec
          have fr13 := (fr1.followedBy fr2).followedBy fr3
          obtain ⟨hF4, fr4⟩ := Cache.settle_step hF3 hA (hg2 _ fr13) hr
          exact ⟨hF4, fr13.followedBy fr4⟩
/-! ## Well-formed recency lists and the forced eviction -/

theorem speciallist.walk_chain (nodes : List Node) (t : Nat) :
    ∀ (ps : List Nat) (q : Nat) (fuel : Nat),
      List.Chain' (speciallist.Link nodes) (q :: (ps ++ [t])) → t ∉ q :: ps →
      ps.length + 2 ≤ fuel →
      speciallist.walk nodes (some t) fuel (some q) = (q :: ps).map (valueAt nodes) := by
  intro ps
  induction ps with
  | nil =>
    intro q fuel hch hnot hfuel
    obtain ⟨f1, rfl⟩ : ∃ f1, fuel = f1 + 2 := ⟨fuel - 2, by simp at hfuel; omega⟩
    have hq : q ≠ t := fun e => hnot (by simp [e])
    simp only [List.nil_append, List.chain'_cons, List.chain'_singleton, and_true] at hch
    obtain ⟨na, nb, hna, -, hnext, -⟩ := hch
    simp [speciallist.walk, hq, deref, hna, hnext, valueAt, Option.some_inj]
  | cons p ps ih =>
    intro q fuel hch hnot hfuel
    obtain ⟨f1, rfl⟩ : ∃ f1, fuel = f1 + 1 := ⟨fuel - 1, by simp at hfuel; omega⟩
    have hq : q ≠ t := fun e => hnot (by simp [e])
    simp only [List.cons_append, List.chain'_cons] at hch
    obtain ⟨⟨na, nb, hna, -, hnext, -⟩, hrest⟩ := hch
    have hrec := ih p f1 (by simpa using hrest)
      (fun hmem => hnot (List.mem_cons_of_mem _ hmem)) (by simp at hfuel ⊢; omega)
    simp only [speciallist.walk, Option.some_inj, hq, if_false, deref, hna, hnext, hrec]
    simp [valueAt, hna]

/-- Distinct numbers below `n` are at most `n` many. -/
theorem length_le_of_nodup_lt (xs : List Nat) (n : Nat) (hnd : xs.Nodup)
    (hlt : ∀ x ∈ xs, x < n) : xs.length ≤ n := by
  have hsub : xs.toFinset ⊆ Finset.range n := by
    intro x hx
    simp only [List.mem_toFinset] at hx
    simpa using hlt x hx
  have hcard := Finset.card_le_card hsub
  rwa [List.toFinset_card_of_nodup hnd, Finset.card_range] at hcard

theorem speciallist.chain_valid (nodes : List Node) :
    ∀ (xs : List Nat), List.Chain' (speciallist.Link nodes) xs → 2 ≤ xs.length →
      ∀ x ∈ xs, x < nodes.length := by
  intro xs
  induction xs with
  | nil => intro _ h; simp at h
  | cons a xs ih =>
    intro hch hlen x hx
    cases xs with
    | nil => simp at hlen
    | cons b ys =>
      simp only [List.chain'_cons] at hch
      obtain ⟨⟨na, nb, hna, hnb, -, -⟩, hrest⟩ := hch
      rcases List.mem_cons.mp hx with rfl | hx
      · exact lt_length_of_getElem? _ _ _ hna
      · cases ys with
        | nil =>
          simp only [List.mem_singleton] at hx
          subst hx
          exact lt_length_of_getElem? _ _ _ hnb
        | cons d zs =>
          exact ih (by simpa using hrest) (by simp) x hx

theorem speciallist.Repr.values_eq {l : speciallist} {nodes : List Node} {ps : List Nat}
    (hr : l.Repr nodes ps) : l.values nodes = ps.map (valueAt nodes) := by
  obtain ⟨h, t, hh, ht, -, hnd, hch⟩ := hr
  have hvalid := speciallist.chain_valid nodes _ hch (by simp)
  have hlen : ps.length + 2 ≤ nodes.length := by
    have := length_le_of_nodup_lt _ nodes.length hnd hvalid
    simp only [List.length_cons, List.length_append, List.length_singleton, List.length_nil] at this
    omega
  have hnd' : t ∉ ps := by
    intro hmem
    have h1 := (List.nodup_cons.mp hnd).2
    rw [List.nodup_append] at h1
    exact h1.2.2 hmem (by simp)
  cases ps with
  | nil =>
    simp only [List.nil_append, List.chain'_cons, List.chain'_singleton, and_true] at hch
    obtain ⟨na, nb, hna, -, hnext, -⟩ := hch
    obtain ⟨f1, hf1⟩ : ∃ f1, nodes.length = f1 + 1 := ⟨nodes.length - 1, by simp at hlen; omega⟩
    simp [speciallist.values, hh, ht, deref, hna, hnext, hf1, speciallist.walk]
  | cons p ps =>
    simp only [List.cons_append, List.chain'_cons] at hch
    obtain ⟨⟨na, nb, hna, -, hnext, -⟩, hrest⟩ := hch
    have hw := speciallist.walk_chain nodes t ps p nodes.length (by simpa using hrest)
      hnd' (by simp at hlen ⊢; omega)
    simp only [speciallist.values, hh, ht, deref, hna, hnext, hw]

theorem speciallist.Repr.last {l : speciallist} {nodes : List Node} {ps : List Nat}
    (hr : l.Repr nodes ps) (hne : l.size_ ≠ 0) :
    ∃ t nt q, l.tail_ = some t ∧ nodes[t]? = some nt ∧ nt.prev = some q ∧ q ∈ ps := by
  obtain ⟨h, t, -, ht, hsize, -, hch⟩ := hr
  have hps : ps ≠ [] := by
    intro e
    rw [e] at hsize
    exact hne hsize
  obtain ⟨ps1, q, rfl⟩ := (List.eq_nil_or_concat ps).resolve_left hps
  have hsplit : h :: (ps1.concat q ++ [t]) = (h :: ps1) ++ q :: [t] := by simp
  rw [hsplit, List.chain'_split] at hch
  simp only [List.chain'_cons, List.chain'_singleton, and_true] at hch
  obtain ⟨-, na, nb, -, hnb, -, hprev⟩ := hch
  exact ⟨t, nb, q, ht, hnb, hprev, by simp⟩

theorem modify_valueAt {nodes nodes1 : List Node} {p : Ptr} {f : Node → Node}
    (h : modify nodes p f = Res.ok nodes1) (hf : ∀ n, (f n).value = n.value) (x : Nat) :
    valueAt nodes1 x = valueAt nodes x := by
  cases p with
  | none => cases h
  | some q =>
    obtain ⟨a, ha, rfl⟩ := modify_eq_ok h
    have hlt := lt_length_of_getElem? _ _ _ ha
    by_cases hqx : q = x
    · subst hqx
      simp [valueAt, List.getElem?_set_self hlt, ha, hf]
    · simp [valueAt, List.getElem?_set_ne hqx]

/-- What `pop_back` hands out when `size_` is not zero: the node before the
tail sentinel, whose value is not changed by the unlinking. -/
theorem speciallist.pop_back_block {l l1 : speciallist} {nodes nodes1 : List Node}
    {block : Ptr} {t q : Nat} {nt : Node}
    (hne : l.size_ ≠ 0) (ht : l.tail_ = some t) (hnt : nodes[t]? = some nt)
    (hprev : nt.prev = some q)
    (h : l.pop_back nodes = Res.ok (block, l1, nodes1)) :
    block = some q ∧ valueAt nodes1 q = valueAt nodes q := by
  unfold speciallist.pop_back at h
  simp only [hne, if_false, Res.bind_eq_ok, Res.pure_eq, Res.ok.injEq, Prod.mk.injEq] at h
  obtain ⟨t0, hd0, tp, -, n1, hm1, t2, -, n2, hm2, hb, -, hnodes⟩ := h
  subst hnodes
  have e0 : t0 = nt := by
    rw [ht] at hd0
    have := deref_eq_ok hd0
    rw [hnt] at this
    exact (Option.some.inj this).symm
  subst e0
  refine ⟨by rw [← hb, hprev], ?_⟩
  rw [modify_valueAt hm2 (fun n => rfl), modify_valueAt hm1 (fun n => rfl)]

theorem Cache.order_eq {w : World} {h s : Nat} {c : Cache} {l : speciallist}
    (hc : w.caches[h]? = some c) (hl : c.lists_[s]? = some l) :
    Cache.order w h s = l.values w.nodes := by
  simp [Cache.order, hc, hl]

/-- In inclusive mode a forced eviction does not complete when the victim is
not among the lines of its set in the requester. -/
theorem Cache.pass_up_ne_ok {w w1 : World} {h v : Nat}
    (hincl : w.inclusive = true)
    (hwf : ∀ c l, w.caches[h]? = some c → c.lists_[c.find_target_set v]? = some l →
      ∃ ps, l.Repr w.nodes ps)
    (hnr : ∀ c, w.caches[h]? = some c → v ∉ Cache.order w h (c.find_target_set v)) :
    Cache.pass_up w (some h) v ≠ Res.ok w1 := by
  intro hr
  unfold Cache.pass_up at hr
  simp only [hincl, if_true, Res.bind_eq_ok] at hr
  obtain ⟨⟨a, w3⟩, hev, hr⟩ := hr
  dsimp only at hr
  split at hr
  swap
  · cases hr
  rename_i hav
  unfold Cache.evict_block at hev
  simp only [Res.bind_eq_ok] at hev
  obtain ⟨c, hc, l, hl, ⟨block, l1, nodes1⟩, hpop, hev⟩ := hev
  have hc' := deref_eq_ok hc
  have hl' := index_eq_ok hl
  dsimp only at hev
  split at hev
  · cases hev
  rename_i hblock
  simp only [Res.bind_eq_ok, Res.pure_eq, Res.ok.injEq, Prod.mk.injEq] at hev
  obtain ⟨tb, -, b, hb, hval, -⟩ := hev
  obtain ⟨ps, hrepr⟩ := hwf c l hc' hl'
  have hsize : l.size_ ≠ 0 := by
    intro h0
    unfold speciallist.pop_back at hpop
    simp only [h0, if_true, Res.pure_eq, Res.ok.injEq, Prod.mk.injEq] at hpop
    exact hblock hpop.1.symm
  obtain ⟨t, nt, q, ht, hnt, hprev, hq⟩ := hrepr.last hsize
  obtain ⟨hbq, hvq⟩ := speciallist.pop_back_block hsize ht hnt hprev hpop
  subst hbq
  have hbv : b.value = valueAt nodes1 q := by
    have := deref_eq_ok hb
    simp [valueAt, this]
  have hmem : valueAt w.nodes q ∈ Cache.order w h (c.find_target_set v) := by
    rw [Cache.order_eq hc' hl', hrepr.values_eq]
    exact List.mem_map_of_mem _ hq
  have hv : valueAt w.nodes q = v := by rw [← hvq, ← hbv, hval, hav]
  rw [hv] at hmem
  exact hnr c hc' hmem

theorem deref_ne_fuel {α : Type} (heap : List α) (p : Ptr) : deref heap p ≠ Res.fuel := by
  rcases deref_ok_or_null heap p with ⟨a, ha⟩ | ha <;> rw [ha] <;> intro h <;> cases h

theorem index_ne_fuel {α : Type} (v : List α) (i : Nat) : index v i ≠ Res.fuel := by
  unfold index
  cases v[i]? <;> intro h <;> cases h

theorem modify_ne_fuel {α : Type} (heap : List α) (p : Ptr) (f : α → α) :
    modify heap p f ≠ Res.fuel := by
  cases p with
  | none => intro h; cases h
  | some i =>
    simp only [modify]
    cases heap[i]? <;> intro h <;> cases h

theorem Res.bind_ne_fuel {α β : Type} {x : Res α} {f : α → Res β}
    (hx : x ≠ Res.fuel) (hf : ∀ a, f a ≠ Res.fuel) : (x >>= f) ≠ Res.fuel := by
  cases x with
  | ok a => exact hf a
  | fault e => intro h; cases h
  | fuel => exact absurd rfl hx

theorem speciallist.pop_back_ne_fuel (l : speciallist) (nodes : List Node) :
    l.pop_back nodes ≠ Res.fuel := by
  unfold speciallist.pop_back
  split
  · intro h; cases h
  · refine Res.bind_ne_fuel (deref_ne_fuel _ _) (fun t => ?_)
    refine Res.bind_ne_fuel (deref_ne_fuel _ _) (fun tp => ?_)
    refine Res.bind_ne_fuel (modify_ne_fuel _ _ _) (fun n1 => ?_)
    refine Res.bind_ne_fuel (deref_ne_fuel _ _) (fun t2 => ?_)
    refine Res.bind_ne_fuel (modify_ne_fuel _ _ _) (fun n2 => ?_)
    intro h; cases h

theorem Cache.evict_block_ne_fuel (w : World) (self addr : Nat) :
    Cache.evict_block w self addr ≠ Res.fuel := by
  unfold Cache.evict_block
  refine Res.bind_ne_fuel (deref_ne_fuel _ _) (fun c => ?_)
  refine Res.bind_ne_fuel (index_ne_fuel _ _) (fun l => ?_)
  refine Res.bind_ne_fuel (speciallist.pop_back_ne_fuel _ _) (fun r => ?_)
  obtain ⟨block, l1, nodes1⟩ := r
  dsimp only
  split
  · intro h; cases h
  · refine Res.bind_ne_fuel (index_ne_fuel _ _) (fun t => ?_)
    refine Res.bind_ne_fuel (deref_ne_fuel _ _) (fun b => ?_)
    intro h; cases h

theorem Cache.pass_up_ne_fuel (w : World) (h : Ptr) (v : Nat) :
    Cache.pass_up w h v ≠ Res.fuel := by
  unfold Cache.pass_up
  cases h with
  | none => intro h; cases h
  | some j =>
    dsimp only
    split
    · refine Res.bind_ne_fuel (Cache.evict_block_ne_fuel _ _ _) (fun r => ?_)
      obtain ⟨a, w2⟩ := r
      dsimp only
      split <;> intro h <;> cases h
    · intro h; cases h

theorem Cache.evict_block_inclusive {w w1 : World} {self addr a : Nat}
    (h : Cache.evict_block w self addr = Res.ok (a, w1)) : w1.inclusive = w.inclusive := by
  unfold Cache.evict_block at h
  simp only [Res.bind_eq_ok] at h
  obtain ⟨c, -, l, -, ⟨block, l1, nodes1⟩, -, h⟩ := h
  dsimp only at h
  split at h
  · cases h
  · simp only [Res.bind_eq_ok, Res.pure_eq, Res.ok.injEq, Prod.mk.injEq] at h
    obtain ⟨t, -, b, -, -, hw⟩ := h
    subst hw
    rfl

theorem Cache.add_block_inclusive {w w1 : World} {self addr ts tag ev : Nat} {r : Bool × Nat}
    (h : Cache.add_block w self addr ts tag ev = Res.ok (r, w1)) :
    w1.inclusive = w.inclusive := by
  unfold Cache.add_block at h
  simp only [Res.bind_eq_ok] at h
  obtain ⟨c, -, t, -, h⟩ := h
  split at h
  · simp only [Res.bind_eq_ok, Res.pure_eq, Res.ok.injEq, Prod.mk.injEq] at h
    obtain ⟨l, -, ⟨block, l1, nodes1⟩, -, -, hw⟩ := h
    subst hw
    rfl
  · simp only [Res.bind_eq_ok, Res.pure_eq, Res.ok.injEq, Prod.mk.injEq] at h
    obtain ⟨⟨a, w2⟩, hev, -, hw⟩ := h
    subst hw
    exact Cache.evict_block_inclusive hev

/-! ## Fresh stores: which operations complete, and what they keep -/

/-- On a store seeded by direct calls of `add_block` the forced eviction
completes and leaves an inconsistent store: `0x10` is linked in the recency
list while its tag 1 is no key of the lookup. -/
theorem seeded_not_consistent :
    Scenario.seeded = Res.ok Scenario.seededWorld ∧
    Cache.linked Scenario.seededWorld 0 0 = [3] ∧
    Cache.lookup Scenario.seededWorld 0 0 1 = none ∧
    ¬ Scenario.seededWorld.Consistent := by
  refine ⟨rfl, rfl, rfl, fun h => ?_⟩
  have hmem : 3 ∈ Cache.linked Scenario.seededWorld 0 0 := by
    rw [show Cache.linked Scenario.seededWorld 0 0 = [3] from rfl]
    exact List.mem_singleton.mpr rfl
  have h1 := (h 0 _ 0 1 rfl (by decide)).2.2 3 hmem _ rfl rfl
  rw [show Cache.lookup Scenario.seededWorld 0 0 1 = none from rfl] at h1
  cases h1

/-! ## What the code does compute from the static members -/

/-- The decomposition the constructor and the two address methods compute from
the static member: for a level constructed with `2 ^ s` sets while
`Cache::blocksize` is `2 ^ b`, with `b + s < 32`, `find_target_set(addr)` is
`(addr >> b) & (2^s - 1)`, below the number of sets, which is the length of
both per-set tables; `find_tag(addr)` is `addr >> (b + s)`; and two addresses
have the same set index and tag exactly when they agree above the `b` offset
bits. -/
theorem Cache.built_decomposition (w : World) (b s : Nat)
    (num_assoc hittime refs misses penalties : Nat) (c : Cache) (addr addr2 : Nat)
    (hb : w.blocksize = 2 ^ b) (hbs : b + s < 32)
    (hc : Cache.built w (2 ^ s) num_assoc hittime refs misses penalties = some c) :
    c.find_target_set addr = (addr >>> b) &&& (2 ^ s - 1) ∧
    c.find_target_set addr < c.sets_ ∧
    c.hash_tables_.length = c.sets_ ∧ c.lists_.length = c.sets_ ∧
    c.find_tag addr = addr >>> (b + s) ∧
    ((c.find_target_set addr = c.find_target_set addr2 ∧ c.find_tag addr = c.find_tag addr2)
      ↔ addr >>> b = addr2 >>> b) := by
  obtain ⟨hsets, htab, hlists, hbb, hsb, hmask⟩ := Cache.built_eq _ _ _ _ _ _ _ c hc
  have hbb' : c.block_bits_ = b := by rw [hbb, hb, ilog2_two_pow]
  have hsb' : c.set_bits_ = s := by rw [hsb, ilog2_two_pow]
  have hs32 : 2 ^ s - 1 < 2 ^ 32 :=
    lt_of_le_of_lt (Nat.sub_le _ _) (Nat.pow_lt_pow_right (by decide) (by omega))
  have hmask' : c.set_mask_ = 2 ^ s - 1 := by
    rw [hmask, ilog2_two_pow, Nat.one_shiftLeft, u32, Nat.mod_eq_of_lt hs32]
  have hts : ∀ a, c.find_target_set a = (a >>> b) % 2 ^ s := by
    intro a
    rw [Cache.find_target_set, hbb', hmask', Nat.and_pow_two_sub_one_eq_mod]
  have htg : ∀ a, c.find_tag a = (a >>> b) / 2 ^ s := by
    intro a
    rw [Cache.find_tag, hbb', hsb', Nat.shiftRight_eq_div_pow (a >>> b) s]
  have hpos : 0 < 2 ^ s := Nat.two_pow_pos s
  refine ⟨?_, ?_, ?_, hlists.trans hsets.symm, ?_, ?_⟩
  · rw [hts, Nat.and_pow_two_sub_one_eq_mod]
  · rw [hts, hsets]; exact Nat.mod_lt _ hpos
  · rw [htab, hsets, List.length_replicate]
  · rw [htg, Nat.shiftRight_add, Nat.shiftRight_eq_div_pow (addr >>> b) s]
  · rw [hts, hts, htg, htg]
    exact div_mod_pair_iff _ _ _

/-- With `Cache::inclusive` true: when `add_block` reports the eviction of
victim `v` and no node with address `v` is linked in the recency list of its
set in the requester `h` (a well-formed doubly linked list), the forced
eviction ends in a fault, and so do lines 235-249 of `access`. -/
theorem Cache.settle_unlinked_victim_faults (w w2 : World)
    (self addr ts tag time pen h v : Nat)
    (hincl : w.inclusive = true)
    (hadd : Cache.add_block w self addr ts tag 0 = Res.ok ((true, v), w2))
    (hwf : ∀ c l, w2.caches[h]? = some c → c.lists_[c.find_target_set v]? = some l →
      ∃ ps, l.Repr w2.nodes ps)
    (hnr : ∀ c, w2.caches[h]? = some c → v ∉ Cache.order w2 h (c.find_target_set v)) :
    ∃ f, Cache.pass_up w2 (some h) v = Res.fault f ∧
      Cache.settle w self addr ts tag time pen (some h) = Res.fault f := by
  have hincl2 : w2.inclusive = true := by rw [Cache.add_block_inclusive hadd]; exact hincl
  cases hp : Cache.pass_up w2 (some h) v with
  | ok w3 => exact absurd hp (Cache.pass_up_ne_ok hincl2 hwf hnr)
  | fuel => exact absurd hp (Cache.pass_up_ne_fuel _ _ _)
  | fault f =>
    refine ⟨f, rfl, ?_⟩
    unfold Cache.settle
    simp only [hadd, Res.ok_bind, if_true, hp, Res.fault_bind]

/-! ## The claims -/

/-- C1 (hit latency) fails on the code.  On the level `Cache(4, 2, 1)` without
next level and with memory latency 100, once `0x00` has been inserted its tag is
a key of the lookup of set 0, yet `is_hit(0, 0)` is `false` (it compares
`find(tag)` with `end()` for equality) and `access(0x00, nullptr)` returns
`101 = 1 + 100`, counting a miss and a penalty of 100, where the claim gives the
hit time `1`.  In the two-level hierarchy of the worked example, with `0x00`
resident in I$ and L2, `icache_access(0x00)` returns `111` and the access is
forwarded to L2 (its reference counter becomes 1). -/
theorem C1_present_tag_charged_as_miss :
    Scenario.presentTag = Res.ok (true, false, 101, some (1, 1, 100)) ∧
    Scenario.presentTagTwoLevels =
      Res.ok (true, 111, some (1, 1, 110), some (1, 1, 100)) :=
  ⟨rfl, rfl⟩

/-- C2 (miss latency) fails on the code: every access of a level with
`sets_ ≠ 0` at an address whose tag is not a key of the lookup of its set ends
in a fault and returns no latency.  `is_hit` is `true` exactly for absent tags,
so `access` runs lines 252-255, where `hash_tables_[target_set][tag]` is an
empty pointer that `remove` / `push_front` dereference. -/
theorem C2_absent_tag_access_faults (fuel : Nat) (w : World) (self addr : Nat) (h : Ptr)
    (c : Cache) (t : umap) (hc : w.caches[self]? = some c) (hs : c.sets_ ≠ 0)
    (ht : c.hash_tables_[c.find_target_set addr]? = some t)
    (habs : umap.find t (c.find_tag addr) = none) :
    ∃ f, Cache.access (fuel + 1) w self addr h = Res.fault f :=
  Cache.access_absent_tag_faults fuel w self addr h c t hc hs ht habs

/-- C2 at the worked example: the fresh level `Cache(4, 2, 1)` faults on its
first access at `0x00`, and in the hierarchy built by `CacheWrapper()` the cold
instruction accesses at `0x00` and `0x10`, for which the claim gives latency
`111`, both end in a null dereference. -/
theorem C2_absent_tag_access_faults_witness :
    (∃ f, Cache.access 1 Scenario.freshLevel.2 Scenario.freshLevel.1 0x00 none
        = Res.fault f) ∧
    CacheWrapper.firstAccess Program.worked 0x00 = Res.fault .nullDeref ∧
    CacheWrapper.firstAccess Program.worked 0x10 = Res.fault .nullDeref :=
  ⟨C2_absent_tag_access_faults 0 Scenario.freshLevel.2 Scenario.freshLevel.1 0x00 none
      _ [] (by rfl) (by decide) (by rfl) (by rfl),
    rfl, rfl⟩

/-- C3 (totality of access) fails on the code, for every configuration with
`icacheSets ≠ 0` and every address.  After `init_cache` the global
`cache_wrapper` is empty, so `icache_access` and `dcache_access` dereference a
null pointer.  And on the hierarchy that `CacheWrapper()` builds from the same
configuration the first `icache_access` ends in a fault as well (the null node
of lines 253-255). -/
theorem C3_first_access_faults (p : Program) (addr : Nat) (hs : p.icacheSets ≠ 0) :
    icache_access (init_cache p) addr = Res.fault .nullDeref ∧
    dcache_access (init_cache p) addr = Res.fault .nullDeref ∧
    ∃ f, CacheWrapper.firstAccess p addr = Res.fault f :=
  ⟨rfl, rfl, CacheWrapper.firstAccess_faults p addr hs⟩

/-- C3 at the worked configuration (I$ with 4 sets) and address `0x00`. -/
theorem C3_first_access_faults_witness :
    Program.worked.icacheSets ≠ 0 ∧
    icache_access (init_cache Program.worked) 0x00 = Res.fault .nullDeref ∧
    dcache_access (init_cache Program.worked) 0x00 = Res.fault .nullDeref ∧
    ∃ f, CacheWrapper.firstAccess Program.worked 0x00 = Res.fault f :=
  ⟨by decide, C3_first_access_faults Program.worked 0x00 (by decide)⟩

/-- C4 (initialisation) fails on the code in its second half: `init_cache` sets
the nine counters to zero, but it assigns `unique_ptr<CacheWrapper>()` to
`cache_wrapper`, so no hierarchy is constructed: `cache_wrapper` is empty and
the store holds exactly the objects it held before. -/
theorem C4_init_cache_constructs_nothing (p : Program) :
    (init_cache p).cache_wrapper = none ∧
    (init_cache p).store = p.store ∧
    ((init_cache p).icacheRefs = 0 ∧ (init_cache p).icacheMisses = 0 ∧
      (init_cache p).icachePenalties = 0) ∧
    ((init_cache p).dcacheRefs = 0 ∧ (init_cache p).dcacheMisses = 0 ∧
      (init_cache p).dcachePenalties = 0) ∧
    ((init_cache p).l2cacheRefs = 0 ∧ (init_cache p).l2cacheMisses = 0 ∧
      (init_cache p).l2cachePenalties = 0) := by
  simp [init_cache]

/-- C6 (LRU correctness) fails on the code.  One set of associativity 2 holding
`0x00` (older) and `0x10`: inserting `0x20` evicts nothing and leaves three
lines; inserting `0x30` then unlinks the least recently used line `0x00` and
returns its address, but the lookup still has the victim's tag 0 as a key
(`evict_block` erases the tag of the incoming address). -/
theorem C6_victim_stays_in_lookup :
    Scenario.lru =
      Res.ok ((false, 0), [0x20, 0x10, 0x00], [0, 1, 2],
              (true, 0x00), [0x20, 0x10], [0, 1, 2]) :=
  rfl

/-- C7 (inclusion invariant) fails on the code.  Inclusive hierarchy, I$ holding
`0x00`, L2 (associativity 1) holding `0x00` (older) and `0x10`:
`icache_access(0x00)` completes with latency 111, after which `0x00` is resident
in I$ and not in L2.  With I$ holding `0x00` (older) and `0x10` and L2 evicting
`0x10`, the forced eviction unlinks `0x00` from I$ instead and the access stops
at `assert(a == evict_addr)`. -/
theorem C7_inclusion_broken_by_access :
    Scenario.inclusion = Res.ok ([0x00], [0x10, 0x00], [0, 1], 111, true, false, [0x10]) ∧
    Scenario.inclusionAssert = Res.fault .assertFail :=
  ⟨rfl, rfl⟩

/-- C8 (a miss makes the block resident) fails on the code.  When `add_block`
takes its eviction branch for the absent address `0x20`, it returns the victim
`0x00` but never links or records `0x20`: afterwards `0x20` is not a key of the
lookup and the recency list is `[0x10]`.  Through `access`: the call at `0x10`
that the code counts as a miss completes with latency 101 and leaves the tag
of `0x10` out of the lookup. -/
theorem C8_insertion_with_victim_drops_block :
    Scenario.insertWithVictim = Res.ok ((true, 0x00), false, [0x10]) ∧
    Scenario.countedMiss = Res.ok (101, some (1, 1, 100), false, [0x10]) :=
  ⟨rfl, rfl⟩

/-- C9 (forced eviction removes the named block) fails on the code.  With
`0x10` (newer) and `0x00` (older) resident in one set, `evict_block(0x10)`
unlinks `0x00` from the recency list, erases the tag of `0x10` from the lookup
and returns `0x00`. -/
theorem C9_evict_block_pops_lru :
    Scenario.forcedEvict = Res.ok ([0x10, 0x00], [0, 1], 0x00, [0x10], [0]) :=
  rfl

/-- C10 (bypass latency) fails on the code.  A level constructed with
`num_sets = 0` returns `0` from `access`: with no next level and memory latency
100 it returns 0, and wired to a level whose own `access` returns 110 it
returns 0 as well (the next level is called, `time_penalty` is assigned and
not added to `access_time`). -/
theorem C10_bypass_returns_zero :
    Scenario.bypassMemory = Res.ok (0, some (1, 0, 0)) ∧
    Scenario.bypassWired = Res.ok (110, 0, some (1, 1, 100)) :=
  ⟨rfl, rfl⟩

/-- C11 (bypass statistics) fails on the code.  With I$, D$ and L2 configured
with 0 sets, `icache_access(0x00)` and `dcache_access(0x40)` complete (latency
0) and all nine statistics globals are 0 afterwards: the reference counters
`icacheRefs`, `dcacheRefs`, `l2cacheRefs` have not been increased.  This is so
with the static members as the program leaves them and also when they agree
with the configuration.  With a bypass I$ over an L2 of one set, the first
`icache_access` does not complete at all. -/
theorem C11_bypass_reference_not_counted :
    Scenario.bypassStatistics (Program.configured 0 2 1 0 2 1 0 2 10 0 16 100)
      = Res.ok (0, 0, [0, 0, 0, 0, 0, 0, 0, 0, 0]) ∧
    Scenario.bypassStatistics (Program.ofConfig 0 2 1 0 2 1 0 2 10 0 16 100)
      = Res.ok (0, 0, [0, 0, 0, 0, 0, 0, 0, 0, 0]) ∧
    Scenario.firstCall (Program.configured 0 2 1 0 2 1 1 2 10 0 16 100)
      = Res.ok (Res.fault .nullDeref) :=
  ⟨rfl, rfl, rfl⟩

/-- C12 (idempotent hits) fails on the code.  After one completed access to
`0x00` the immediately repeated access returns `101` again, not the hit time
`1`, and is counted as a second miss.  When the completed access went through
the eviction branch of `add_block` (set over capacity), it erased the tag of
the accessed address, and the immediately repeated access ends in a null
dereference. -/
theorem C12_repeated_access_is_charged_again :
    Scenario.repeated = Res.ok (101, 101, some (2, 2, 200), [0x00, 0x00, 0x00]) ∧
    Scenario.repeatedAfterEviction = Res.ok (101, Res.fault .nullDeref) :=
  ⟨rfl, rfl⟩

/-- C13 (statistics update) fails on the code.  In the worked hierarchy with
`0x00` resident in I$ and L2, `icache_access(0x00)` is a hit on both levels,
yet each level increments its miss cell and adds the penalty to its penalty
cell (I$: 1 miss, 110 cycles; L2: 1 miss, 100 cycles).  None of these updates
reaches the statistics: the nine globals are all 0 after the call, the
reference counters included. -/
theorem C13_hit_counted_as_miss_and_globals_untouched :
    Scenario.statistics =
      Res.ok (111, some (1, 1, 110), some (1, 1, 100), [0, 0, 0, 0, 0, 0, 0, 0, 0]) :=
  rfl

/-- C14 (address decomposition) fails on the code.  With the globals configured
for 16-byte blocks (`b = 4`) and an I$ of 4 sets (`s = 2`), the I$ that
`CacheWrapper()` builds gives set 1 and tag 77 for `0x135`, where the claimed
`(addr >> 4) & 3` and `addr >> 6` are 3 and 4; and it gives `0x13A`, which
agrees with `0x135` above the 4 offset bits, another set and tag (2 and 78).
The hierarchy built is the same for every configured block size: the
constructor reads `Cache::blocksize`, which the configuration never reaches. -/
theorem C14_configured_block_size_not_used :
    Scenario.decomposition (Program.configured 4 2 1 4 2 1 1 2 10 0 16 100)
      = Res.ok ((1, 77), (2, 78)) ∧
    ((0x135 >>> 4) &&& (2 ^ 2 - 1), 0x135 >>> (4 + 2)) = (3, 4) ∧
    0x135 >>> 4 = 0x13A >>> 4 ∧
    ∀ blocksize : Nat,
      CacheWrapper.new (Program.configured 4 2 1 4 2 1 1 2 10 0 blocksize 100)
        = CacheWrapper.new (Program.configured 4 2 1 4 2 1 1 2 10 0 16 100) :=
  ⟨rfl, by decide, by decide, fun _ => rfl⟩

/-- C15 (inclusion violations are signalled) fails on the code.  First, with
`Cache::inclusive` true: the lower level evicts `0x10`, whose tag is no key of
the requester's lookup (`0x10` is not resident there) while a node with that
address is still the last of the requester's recency list; the forced eviction
unlinks that node, the `assert` of line 241 passes and `access` returns the
latency 110.  Second, on the program's own start state with `inclusive = 1`
configured: `Cache::inclusive` is false, L2 evicts `0x10`, which is not
resident in the requesting I$, no forced eviction is attempted and
`icache_access` returns the latency 11. -/
theorem C15_inclusion_violation_passes_silently :
    Scenario.silentViolation = Res.ok (false, [0x10], [0x20, 0x10], 110, [0x20], []) ∧
    Scenario.configuredInclusive = Res.ok (false, [0x00, 0x10], false, 11, [0x00]) :=
  ⟨rfl, rfl⟩

/-- C16 (hit detection) fails on the code: for every set index in range and
every tag, `is_hit` returns `true` exactly when the tag is NOT a key of that
set's lookup table, and `false` exactly when it is. -/
theorem C16_is_hit_true_iff_absent (c : Cache) (target_set tag : Nat) (t : umap)
    (ht : c.hash_tables_[target_set]? = some t) :
    (c.is_hit target_set tag = Res.ok true ↔ umap.find t tag = none) ∧
    (c.is_hit target_set tag = Res.ok false ↔ ∃ v, umap.find t tag = some v) := by
  cases hf : umap.find t tag with
  | none => simp [Cache.is_hit, index, ht, hf]
  | some v => simp [Cache.is_hit, index, ht, hf]

/-- C16 at the level `Cache(4, 2, 1)` of the worked example after `0x00` has
been inserted: tag 0 is a key of set 0 and `is_hit(0, 0)` is `false`; in the
fresh level, where the table of set 0 is empty, `is_hit(0, 0)` is `true`. -/
theorem C16_is_hit_true_iff_absent_witness :
    Scenario.filled = Res.ok Scenario.filledObject ∧
    Scenario.filledObject.hash_tables_[0]? = some [(0, some 8)] ∧
    umap.find [(0, some 8)] 0 = some (some 8) ∧
    Scenario.filledObject.is_hit 0 0 = Res.ok false ∧
    Scenario.freshObject.is_hit 0 0 = Res.ok true ∧
    ((Scenario.filledObject.is_hit 0 0 = Res.ok true ↔ umap.find [(0, some 8)] 0 = none) ∧
     (Scenario.filledObject.is_hit 0 0 = Res.ok false ↔
        ∃ v, umap.find [(0, some 8)] 0 = some v)) :=
  ⟨rfl, rfl, rfl, rfl, rfl,
    C16_is_hit_true_iff_absent Scenario.filledObject 0 0 [(0, some 8)] rfl⟩

/-- C18 (a hit changes recency only) fails on the code.  A hit on `0x00` in a
set holding `0x20, 0x00` links a new node instead of moving the old one: three
lines are linked afterwards.  In a set of associativity 1 holding `0x10, 0x00`
the hit on `0x00` unlinks `0x00` itself and erases its tag: the resident tags
change from `0, 1` to `1`. -/
theorem C18_hit_changes_contents :
    Scenario.hitGrows = Res.ok ([0x20, 0x00], 101, [0x00, 0x20, 0x00], [0, 1], [0x10]) ∧
    Scenario.hitEvictsItself = Res.ok ([0, 1], [0x10, 0x00], 101, [1], [0x10]) :=
  ⟨rfl, rfl⟩

/-- C19 (no forced eviction without inclusion).  Let `A` be a set of levels
that contains the accessed level and the next level of each of its members
(the accessed level and everything below it), and `Own` the nodes of their
recency lists, as `World.Footprint` says.  If `Cache::inclusive` is false or
`access` is called with no requester, a completed `access` leaves the `Cache`
object of every level outside `A` (lookup tables and list heads included) and
every list node outside `Own` exactly as they were. -/
theorem C19_upper_levels_untouched (fuel : Nat) (w w1 : World) (A Own : Nat → Prop)
    (self addr t : Nat) (h : Ptr)
    (hF : w.Footprint A Own) (hA : A self) (hg : w.inclusive = false ∨ h = none)
    (hr : Cache.access fuel w self addr h = Res.ok (t, w1)) :
    (∀ i, ¬ A i → w1.caches[i]? = w.caches[i]?) ∧
    (∀ p, ¬ Own p → w1.nodes[p]? = w.nodes[p]?) := by
  have hg' : w.inclusive = false ∨ ptrIn A h := by
    rcases hg with hg | hg
    · exact Or.inl hg
    · subst hg
      exact Or.inr (fun q hq => (nomatch hq))
  obtain ⟨-, fr⟩ := Cache.access_step fuel hF hA hg' hr
  exact ⟨fr.caches_out, fr.nodes_out⟩

/-- C19 on a two-level hierarchy in non-inclusive mode: the lower level (object
1, nodes 3 and up) is accessed at `0x10` with the upper level (object 0) as
requester and evicts its line `0x00`; the object of the upper level, its nodes
0 to 2, its lookup keys and its recency order are what they were. -/
theorem C19_upper_levels_untouched_witness :
    Scenario.frameSetup = Res.ok Scenario.frameWorld ∧
    Scenario.frameWorld.Footprint (fun j => j = 1) (fun p => 3 ≤ p) ∧
    (Scenario.frameWorld.inclusive = false ∨ (some 0 : Ptr) = none) ∧
    Cache.access 1 Scenario.frameWorld 1 0x10 (some 0) = Res.ok (110, Scenario.frameAfter) ∧
    Cache.order Scenario.frameWorld 1 0 = [0x10, 0x00] ∧
    Cache.order Scenario.frameAfter 1 0 = [0x10] ∧
    Scenario.frameAfter.caches[0]? = Scenario.frameWorld.caches[0]? ∧
    Scenario.frameAfter.nodes[0]? = Scenario.frameWorld.nodes[0]? ∧
    Scenario.frameAfter.nodes[1]? = Scenario.frameWorld.nodes[1]? ∧
    Scenario.frameAfter.nodes[2]? = Scenario.frameWorld.nodes[2]? ∧
    Cache.tags Scenario.frameAfter 0 0 = Cache.tags Scenario.frameWorld 0 0 ∧
    Cache.order Scenario.frameAfter 0 0 = Cache.order Scenario.frameWorld 0 0 := by
  have hF : Scenario.frameWorld.Footprint (fun j => j = 1) (fun p => 3 ≤ p) := by
    refine ⟨?_, ?_, ?_, ?_⟩
    · intro j c hj hc
      subst hj
      simp [Scenario.frameWorld] at hc
      subst hc
      intro q hq
      cases hq
    · intro j c l hj hc hl
      subst hj
      simp [Scenario.frameWorld] at hc
      subst hc
      simp at hl
      subst hl
      constructor <;> intro q hq <;> cases hq <;> decide
    · intro p n hp hn
      have hlt : p < 7 := lt_length_of_getElem? _ _ _ hn
      have hp3 : 3 ≤ p := hp
      interval_cases p <;> simp [Scenario.frameWorld] at hn <;> subst hn <;>
        constructor <;> intro q hq <;> cases hq <;> decide
    · intro p hp
      have h7 : 7 ≤ p := hp
      show 3 ≤ p
      omega
  have hg : Scenario.frameWorld.inclusive = false ∨ (some 0 : Ptr) = none := Or.inl rfl
  have hr : Cache.access 1 Scenario.frameWorld 1 0x10 (some 0)
      = Res.ok (110, Scenario.frameAfter) := rfl
  have hc := C19_upper_levels_untouched 1 Scenario.frameWorld Scenario.frameAfter
    (fun j => j = 1) (fun p => 3 ≤ p) 1 0x10 110 (some 0) hF rfl hg hr
  exact ⟨rfl, hF, hg, hr, rfl, rfl, hc.1 0 (by decide), hc.2 0 (by decide), hc.2 1 (by decide),
    hc.2 2 (by decide), rfl, rfl⟩

/-- C20 (cross-level accounting) fails on the code in its first half.  With
`0x40` resident in D$ and L2, `dcache_access(0x40)` is a D$ hit and still calls
`access` on L2 once (the reference cell of L2 becomes 1); `dcache_access(0x80)`,
a D$ miss, ends in a null dereference inside D$ and never reaches L2. -/
theorem C20_l2_called_on_hit_not_on_miss :
    Scenario.crossLevel =
      Res.ok (true, false, 111, some (1, 1, 110), some (1, 1, 100),
        Res.fault .nullDeref) :=
  rfl

end CacheSim
